import Mathlib

/-!
# git-backup: repository discovery and mirror synchronisation

A shallow embedding of `generic.go`, `github.go`, `gitlab.go` and `main.go`.

Go strings are modelled as lists of Unicode code points (`List Char`), i.e. as
valid UTF-8 text; every separator, prefix and suffix the program looks for is
ASCII, so cutting by code points and cutting by bytes agree on such text.
-/

namespace GitBackup

/-- A Go string, as its sequence of runes. -/
abbrev GoString := List Char

/-! ## The parts of the Go standard library the program calls -/

/-- Go's `strings.HasPrefix`. -/
def HasPrefix (s pre : GoString) : Bool :=
  pre.isPrefixOf s

/-- Go's `strings.TrimPrefix`: `s` without the leading `pre`, or `s` itself. -/
def TrimPrefix (s pre : GoString) : GoString :=
  if HasPrefix s pre then s.drop pre.length else s

/-- The backwards scan of `filepath.Ext` over the reversed path: stop at a path
separator, return the suffix starting at the first dot met. -/
def extScan : List Char → List Char → GoString
  | [], _ => []
  | c :: before, acc =>
    if c = '/' then []
    else if c = '.' then c :: acc
    else extScan before (c :: acc)

/-- Go's `filepath.Ext` (Unix path separator): the suffix beginning at the final dot
of the final path element, empty when there is none. -/
def Ext (path : GoString) : GoString :=
  extScan path.reverse []

/-- The character class `[^a-zA-Z0-9\-]` of the regular expression in
`BackupRepo`. -/
def nonAlnumDash (c : Char) : Bool :=
  !(('a' ≤ c ∧ c ≤ 'z') ∨ ('A' ≤ c ∧ c ≤ 'Z') ∨ ('0' ≤ c ∧ c ≤ '9') ∨ c = '-')

/-- Go's `Regexp.ReplaceAllString` for a pattern that is one character class and a
replacement without `$`: every matching rune is replaced by `repl`. -/
def ReplaceAllString (cls : Char → Bool) (s repl : GoString) : GoString :=
  s.flatMap fun c => if cls c then repl else [c]

/-- Go's `unicode.ToLower`: the ASCII rule up to U+007F, the Unicode case table
`tbl` (which belongs to the Go runtime, not to this repository) above. -/
def unicodeToLower (tbl : Char → Char) (r : Char) : Char :=
  if r.toNat ≤ 0x7F then
    if 'A' ≤ r ∧ r ≤ 'Z' then Char.ofNat (r.toNat + 32) else r
  else tbl r

/-- Go's `strings.ToLower`: every rune mapped by `unicode.ToLower` (the ASCII fast
path of the library computes the same string). -/
def ToLower (tbl : Char → Char) (s : GoString) : GoString :=
  s.map (unicodeToLower tbl)

/-- The loop of `strings.Split` for a non-empty separator: `skip` counts the
runes of a separator just recognised that are still to be passed over, `cur`
is the current piece, reversed. -/
def splitLoop (sep : GoString) : Nat → List Char → List Char → List GoString
  | _, [], cur => [cur.reverse]
  | k + 1, _ :: s, cur => splitLoop sep k s cur
  | 0, c :: s, cur =>
    if sep.isPrefixOf (c :: s) then cur.reverse :: splitLoop sep (sep.length - 1) s []
    else splitLoop sep 0 s (c :: cur)

/-- Go's `strings.Split`: the pieces of `s` between the non-overlapping occurrences
of `sep`, leftmost first; an empty separator explodes `s` into its runes. -/
def Split (s sep : GoString) : List GoString :=
  if sep = [] then s.map fun c => [c] else splitLoop sep 0 s []

/-- The element loop of `filepath.Clean` on the elements between slashes:
empty and `.` elements are dropped, a `..` removes the element before it, is
dropped at the root, and is kept at the start of a relative path; `kept` is
the output so far, last element first. -/
def cleanElems (rooted : Bool) : List GoString → List GoString → List GoString
  | [], kept => kept.reverse
  | e :: es, kept =>
    if e = [] ∨ e = ".".toList then cleanElems rooted es kept
    else if e = "..".toList then
      match kept with
      | top :: below =>
        if top = "..".toList then cleanElems rooted es (e :: kept)
        else cleanElems rooted es below
      | [] => if rooted then cleanElems rooted es [] else cleanElems rooted es [e]
    else cleanElems rooted es (e :: kept)

/-- Go's `filepath.Clean` (Unix): the shortest path naming the same file by
lexical processing; the empty result is written `.`. -/
def Clean (path : GoString) : GoString :=
  let rooted : Bool := path.head? = some '/'
  let out := (if rooted then "/".toList else []) ++
    List.intercalate "/".toList (cleanElems rooted (Split path "/".toList) [])
  if out = [] then ".".toList else out

/-- Go's `filepath.Join` (Unix) for two elements: the elements from the first
non-empty one on, separated by a slash and cleaned; empty when both are. -/
def Join (dir name : GoString) : GoString :=
  if dir ≠ [] then Clean (dir ++ "/".toList ++ name)
  else if name ≠ [] then Clean name
  else []

/-! ## `generic.go` -/

/-- Line 15 of `BackupRepo`: a leading `https://` trimmed, then a leading
`git@`. -/
def trimmedName (repo : GoString) : GoString :=
  TrimPrefix (TrimPrefix repo "https://".toList) "git@".toList

/-- Lines 15-20 of `BackupRepo`: both transport prefixes trimmed, then a
`.git` extension cut off. -/
def strippedName (repo : GoString) : GoString :=
  let repoName := TrimPrefix (TrimPrefix repo "https://".toList) "git@".toList
  if Ext repoName = ".git".toList then repoName.take (repoName.length - 4) else repoName

/-- Lines 15-23 of `BackupRepo`: the local directory name `repoName`. -/
def repoName (tbl : Char → Char) (repo : GoString) : GoString :=
  ToLower tbl (ReplaceAllString nonAlnumDash (strippedName repo) "_".toList)

/-- Lines 35-43 of `BackupRepo`: the URL given to `git clone`. -/
def authRepo (repo token : GoString) : GoString :=
  if token ≠ [] ∧ HasPrefix repo "https://".toList then
    let parts := Split repo "://".toList
    match parts with
    | [p0, p1] => p0 ++ "://".toList ++ token ++ "@".toList ++ p1
    | _ => repo
  else repo


/-- An `exec.Cmd`: the argument vector and the working directory `Dir` (empty
when the program leaves it unset). -/
structure Cmd where
  args : List GoString
  dir : GoString
deriving DecidableEq

/-- An HTTP request as the enumerators build it: `http.NewRequest` followed by
the `Header.Set` calls. -/
structure Request where
  method : GoString
  url : GoString
  header : List (GoString × GoString)
deriving DecidableEq

/-- Everything outside the process that the program reads or changes: the
paths that exist in local storage, the commands run so far, the HTTP requests
sent so far and the text written to standard output, oldest first. -/
structure World where
  paths : List GoString
  ran : List Cmd
  sent : List Request
  stdout : List GoString

/-- One `fmt.Print*` call. -/
def World.print (w : World) (text : GoString) : World :=
  { w with stdout := w.stdout ++ [text] }

/-- One `client.Do` call. -/
def World.send (w : World) (req : Request) : World :=
  { w with sent := w.sent ++ [req] }

/-- Several `client.Do` calls in a row. -/
def World.sendAll (w : World) (reqs : List Request) : World :=
  { w with sent := w.sent ++ reqs }

/-- What `cmd.CombinedOutput()` gives back: the captured output, the error
(`none` for exit status zero) and the paths that exist afterwards. -/
structure RunResult where
  output : GoString
  err : Option GoString
  paths : List GoString

/-- What `os.Stat` reports for a path, as far as `BackupRepo` looks at it: no
error; an error of which `os.IsNotExist` holds (ENOENT); or any other error
(ENOTDIR, ENAMETOOLONG, EACCES, ...), of which it does not hold. -/
inductive StatResult where
  | found
  | notExist
  | otherError
deriving DecidableEq

/-- The parts of the Go runtime and of the machine that `generic.go` and
`main.go` rely on and that are not code of this repository: the Unicode
lower-case table behind `unicode.ToLower`, `filepath.Join`, `os.Getenv`,
`os.Stat`, and the effect of running a git command in a given world. -/
structure Runtime where
  lowerTable : Char → Char
  Join : GoString → GoString → GoString
  Getenv : GoString → GoString
  Stat : GoString → World → StatResult
  CombinedOutput : Cmd → World → RunResult

/-- Lines 28-32 of `BackupRepo`: the local path of a repository. -/
def repoPath (rt : Runtime) (repo : GoString) : GoString :=
  let targetDir := rt.Getenv "REPOS_DIR".toList
  let targetDir := if targetDir = [] then "./repos".toList else targetDir
  rt.Join targetDir (repoName rt.lowerTable repo)

/-- The command of line 48: `git clone authRepo repoPath`. -/
def cloneCmd (rt : Runtime) (repo token : GoString) : Cmd :=
  { args := ["git".toList, "clone".toList, authRepo repo token, repoPath rt repo], dir := [] }

/-- The command of lines 52-53: `git fetch --all` run inside `repoPath`. -/
def fetchCmd (rt : Runtime) (repo : GoString) : Cmd :=
  { args := ["git".toList, "fetch".toList, "--all".toList], dir := repoPath rt repo }

/-- The function `BackupRepo` of `generic.go`: clone when `os.IsNotExist` holds
of the error of `os.Stat(repoPath)` (line 45), fetch in every other case, an
`os.Stat` that fails in another way included; the returned option is the Go
`error`. -/
def BackupRepo (rt : Runtime) (repo token : GoString) (w : World) : Option GoString × World :=
  let name := repoName rt.lowerTable repo
  let path := repoPath rt repo
  let absent : Bool := decide (rt.Stat path w = .notExist)
  let w1 :=
    if absent then
      w.print ("Cloning repository ".toList ++ repo ++ " to ".toList ++ path ++ "\n".toList)
    else
      w.print ("Fetching updates from repository ".toList ++ repo ++ " to ".toList ++ path
        ++ "\n".toList)
  let cmd := if absent then cloneCmd rt repo token else fetchCmd rt repo
  let r := rt.CombinedOutput cmd w1
  let w2 : World := { w1 with paths := r.paths, ran := w1.ran ++ [cmd] }
  match r.err with
  | some err =>
    (some ("failed to clone repository ".toList ++ repo ++ ": ".toList ++ err
      ++ "\nGit output: ".toList ++ r.output), w2)
  | none =>
    (none, w2.print ("Successfully updated ".toList ++ repo ++ " in ".toList ++ name
      ++ "\n".toList))

/-! ## `github.go` -/

/-- The struct `GitHubRepo`. -/
structure GitHubRepo where
  FullName : GoString
  CloneURL : GoString
  SSHURL : GoString
  Private : Bool

/-- The struct `GitHubUser`; the anonymous element type of `getUserOrgs` has the same
single field. -/
structure GitHubUser where
  Login : GoString

/-- The outcome of one request: `failed` when `http.NewRequest` or `client.Do`
returns an error; otherwise the status code and the body as `io.ReadAll` and
`json.Unmarshal` deliver it at the type the caller decodes into. -/
inductive Reply (α : Type) where
  | failed (err : GoString)
  | response (status : Nat) (decoded : Except GoString α)

/-- The GitHub REST API as seen through `client.Do`, one field per type the
program decodes a body into. -/
structure GitHubClient where
  user : Request → Reply GitHubUser
  orgs : Request → Reply (List GitHubUser)
  repos : Request → Reply (List GitHubRepo)

/-- A GET request with the two headers every function of `github.go` sets. -/
def githubRequest (token url : GoString) : Request :=
  { method := "GET".toList, url := url,
    header := [("Authorization".toList, "token ".toList ++ token),
               ("Accept".toList, "application/vnd.github.v3+json".toList)] }

/-- Go's `fmt.Errorf("GitHub API returned status %d", resp.StatusCode)`. -/
def githubStatusError (status : Nat) : GoString :=
  "GitHub API returned status ".toList ++ (Nat.repr status).toList

/-- Go's `fmt.Sprintf("%s&page=%d", url, page)`. -/
def pageURL (url : GoString) (page : Nat) : GoString :=
  url ++ "&page=".toList ++ (Nat.repr page).toList

/-- The loop of `getReposFromURL`, lines 158-207, entered with `page` and
`allRepos`; `fuel` bounds the number of iterations and `none` means the bound
was reached. -/
def getReposFromURLLoop (c : GitHubClient) (token url : GoString) :
    Nat → Nat → List GoString → World → Option (Except GoString (List GoString) × World)
  | 0, _, _, _ => none
  | fuel + 1, page, allRepos, w =>
    let req := githubRequest token (pageURL url page)
    let w := w.send req
    match c.repos req with
    | .failed err => some (.error err, w)
    | .response status decoded =>
      if status ≠ 200 then some (.error (githubStatusError status), w)
      else
        match decoded with
        | .error err => some (.error err, w)
        | .ok repos =>
          if repos.length = 0 then some (.ok allRepos, w)
          else
            let allRepos := allRepos ++ repos.map fun repo => repo.CloneURL
            if repos.length < 100 then some (.ok allRepos, w)
            else getReposFromURLLoop c token url fuel (page + 1) allRepos w

/-- The function `getReposFromURL`: the loop started at page 1 with nothing collected. -/
def getReposFromURL (c : GitHubClient) (token url : GoString) (fuel : Nat) (w : World) :
    Option (Except GoString (List GoString) × World) :=
  getReposFromURLLoop c token url fuel 1 [] w

/-- The function `getCurrentUser`. -/
def getCurrentUser (c : GitHubClient) (token : GoString) (w : World) :
    Except GoString GitHubUser × World :=
  let req := githubRequest token "https://api.github.com/user".toList
  let w := w.send req
  match c.user req with
  | .failed err => (.error err, w)
  | .response status decoded =>
    if status ≠ 200 then (.error (githubStatusError status), w)
    else
      match decoded with
      | .error err => (.error err, w)
      | .ok user => (.ok user, w)

/-- The URL `getUserRepos` formats for a user name. -/
def userReposURL (username : GoString) : GoString :=
  "https://api.github.com/users/".toList ++ username ++ "/repos?type=all&per_page=100".toList

/-- The function `getUserRepos`. -/
def getUserRepos (c : GitHubClient) (token username : GoString) (fuel : Nat) (w : World) :
    Option (Except GoString (List GoString) × World) :=
  getReposFromURL c token (userReposURL username) fuel w

/-- The function `getUserOrgs`. -/
def getUserOrgs (c : GitHubClient) (token : GoString) (w : World) :
    Except GoString (List GoString) × World :=
  let req := githubRequest token "https://api.github.com/user/orgs?per_page=100".toList
  let w := w.send req
  match c.orgs req with
  | .failed err => (.error err, w)
  | .response status decoded =>
    if status ≠ 200 then (.error (githubStatusError status), w)
    else
      match decoded with
      | .error err => (.error err, w)
      | .ok orgs => (.ok (orgs.map fun org => org.Login), w)

/-- The URL `getOrgRepos` formats for an organization name. -/
def orgReposURL (orgName : GoString) : GoString :=
  "https://api.github.com/orgs/".toList ++ orgName ++ "/repos?type=all&per_page=100".toList

/-- The function `getOrgRepos`. -/
def getOrgRepos (c : GitHubClient) (token orgName : GoString) (fuel : Nat) (w : World) :
    Option (Except GoString (List GoString) × World) :=
  getReposFromURL c token (orgReposURL orgName) fuel w

/-- Lines 55-63 of `GetAllGithubRepos`: the loop over the organizations. -/
def githubOrgLoop (c : GitHubClient) (token : GoString) (fuel : Nat) :
    List GoString → List GoString → World → Option (List GoString × World)
  | [], repos, w => some (repos, w)
  | org :: orgs, repos, w =>
    match getOrgRepos c token org fuel w with
    | none => none
    | some (.error err, w) =>
      githubOrgLoop c token fuel orgs repos
        (w.print ("Warning: failed to get repositories for org ".toList ++ org ++ ": ".toList
          ++ err ++ "\n".toList))
    | some (.ok orgRepos, w) => githubOrgLoop c token fuel orgs (repos ++ orgRepos) w

/-- The function `GetAllGithubRepos`. -/
def GetAllGithubRepos (c : GitHubClient) (token : GoString) (fuel : Nat) (w : World) :
    Option (Except GoString (List GoString) × World) :=
  match getCurrentUser c token w with
  | (.error err, w) => some (.error ("failed to get current user: ".toList ++ err), w)
  | (.ok user, w) =>
    match getUserRepos c token user.Login fuel w with
    | none => none
    | some (.error err, w) =>
      some (.error ("failed to get user repositories: ".toList ++ err), w)
    | some (.ok userRepos, w) =>
      match getUserOrgs c token w with
      | (.error err, w) =>
        some (.error ("failed to get user organizations: ".toList ++ err), w)
      | (.ok orgs, w) =>
        match githubOrgLoop c token fuel orgs ([] ++ userRepos) w with
        | none => none
        | some (repos, w) => some (.ok repos, w)

/-! ## `gitlab.go` -/

/-- The struct `GitLabRepo`. -/
structure GitLabRepo where
  ID : Int
  Name : GoString
  PathWithNamespace : GoString
  HTTPURLToRepo : GoString
  SSHURLToRepo : GoString
  Visibility : GoString
  Archived : Bool

/-- The struct `GitLabUser`. -/
structure GitLabUser where
  ID : Int
  Username : GoString

/-- The struct `GitLabGroup`. -/
structure GitLabGroup where
  ID : Int
  Name : GoString
  Path : GoString

/-- The GitLab REST API as seen through `client.Do`, one field per type the
program decodes a body into. -/
structure GitLabClient where
  user : Request → Reply GitLabUser
  groups : Request → Reply (List GitLabGroup)
  repos : Request → Reply (List GitLabRepo)

/-- A GET request with the header every function of `gitlab.go` sets. -/
def gitlabRequest (token url : GoString) : Request :=
  { method := "GET".toList, url := url,
    header := [("Authorization".toList, "Bearer ".toList ++ token)] }

/-- Go's `fmt.Errorf("GitLab API returned status %d", resp.StatusCode)`. -/
def gitlabStatusError (status : Nat) : GoString :=
  "GitLab API returned status ".toList ++ (Nat.repr status).toList

/-- The loop of `getGitLabReposFromURL`, lines 160-208, entered with `page`
and `allRepos`; `fuel` bounds the number of iterations and `none` means the
bound was reached. -/
def getGitLabReposFromURLLoop (c : GitLabClient) (token url : GoString) :
    Nat → Nat → List GoString → World → Option (Except GoString (List GoString) × World)
  | 0, _, _, _ => none
  | fuel + 1, page, allRepos, w =>
    let req := gitlabRequest token (pageURL url page)
    let w := w.send req
    match c.repos req with
    | .failed err => some (.error err, w)
    | .response status decoded =>
      if status ≠ 200 then some (.error (gitlabStatusError status), w)
      else
        match decoded with
        | .error err => some (.error err, w)
        | .ok repos =>
          if repos.length = 0 then some (.ok allRepos, w)
          else
            let allRepos := allRepos ++ repos.map fun repo => repo.HTTPURLToRepo
            if repos.length < 100 then some (.ok allRepos, w)
            else getGitLabReposFromURLLoop c token url fuel (page + 1) allRepos w

/-- The function `getGitLabReposFromURL`: the loop started at page 1 with nothing
collected. -/
def getGitLabReposFromURL (c : GitLabClient) (token url : GoString) (fuel : Nat) (w : World) :
    Option (Except GoString (List GoString) × World) :=
  getGitLabReposFromURLLoop c token url fuel 1 [] w

/-- The function `getCurrentGitLabUser`. -/
def getCurrentGitLabUser (c : GitLabClient) (token : GoString) (w : World) :
    Except GoString GitLabUser × World :=
  let req := gitlabRequest token "https://gitlab.com/api/v4/user".toList
  let w := w.send req
  match c.user req with
  | .failed err => (.error err, w)
  | .response status decoded =>
    if status ≠ 200 then (.error (gitlabStatusError status), w)
    else
      match decoded with
      | .error err => (.error err, w)
      | .ok user => (.ok user, w)

/-- The URL `getUserGitLabRepos` formats for a user id. -/
def userProjectsURL (userID : Int) : GoString :=
  "https://gitlab.com/api/v4/users/".toList ++ (Int.repr userID).toList
    ++ "/projects?membership=true&per_page=100".toList

/-- The function `getUserGitLabRepos`. -/
def getUserGitLabRepos (c : GitLabClient) (token : GoString) (userID : Int) (fuel : Nat)
    (w : World) : Option (Except GoString (List GoString) × World) :=
  getGitLabReposFromURL c token (userProjectsURL userID) fuel w

/-- The function `getUserGitLabGroups`. -/
def getUserGitLabGroups (c : GitLabClient) (token : GoString) (w : World) :
    Except GoString (List GitLabGroup) × World :=
  let req := gitlabRequest token
    "https://gitlab.com/api/v4/groups?membership=true&per_page=100".toList
  let w := w.send req
  match c.groups req with
  | .failed err => (.error err, w)
  | .response status decoded =>
    if status ≠ 200 then (.error (gitlabStatusError status), w)
    else
      match decoded with
      | .error err => (.error err, w)
      | .ok groups => (.ok groups, w)

/-- The URL `getGroupGitLabRepos` formats for a group id. -/
def groupProjectsURL (groupID : Int) : GoString :=
  "https://gitlab.com/api/v4/groups/".toList ++ (Int.repr groupID).toList
    ++ "/projects?per_page=100".toList

/-- The function `getGroupGitLabRepos`. -/
def getGroupGitLabRepos (c : GitLabClient) (token : GoString) (groupID : Int) (fuel : Nat)
    (w : World) : Option (Except GoString (List GoString) × World) :=
  getGitLabReposFromURL c token (groupProjectsURL groupID) fuel w

/-- Lines 66-74 of `GetAllGitLabRepos`: the loop over the groups. -/
def gitlabGroupLoop (c : GitLabClient) (token : GoString) (fuel : Nat) :
    List GitLabGroup → List GoString → World → Option (List GoString × World)
  | [], repos, w => some (repos, w)
  | group :: groups, repos, w =>
    match getGroupGitLabRepos c token group.ID fuel w with
    | none => none
    | some (.error err, w) =>
      gitlabGroupLoop c token fuel groups repos
        (w.print ("Warning: failed to get repositories for group ".toList ++ group.Name
          ++ ": ".toList ++ err ++ "\n".toList))
    | some (.ok groupRepos, w) => gitlabGroupLoop c token fuel groups (repos ++ groupRepos) w

/-- The function `GetAllGitLabRepos`. -/
def GetAllGitLabRepos (c : GitLabClient) (token : GoString) (fuel : Nat) (w : World) :
    Option (Except GoString (List GoString) × World) :=
  match getCurrentGitLabUser c token w with
  | (.error err, w) => some (.error ("failed to get current user: ".toList ++ err), w)
  | (.ok user, w) =>
    match getUserGitLabRepos c token user.ID fuel w with
    | none => none
    | some (.error err, w) =>
      some (.error ("failed to get user repositories: ".toList ++ err), w)
    | some (.ok userRepos, w) =>
      match getUserGitLabGroups c token w with
      | (.error err, w) => some (.error ("failed to get user groups: ".toList ++ err), w)
      | (.ok groups, w) =>
        match gitlabGroupLoop c token fuel groups ([] ++ userRepos) w with
        | none => none
        | some (repos, w) => some (.ok repos, w)

/-! ## `main.go` -/

/-- How `fmt.Println` shows a `[]string`: the elements between square brackets,
separated by blanks. -/
def formatSlice (xs : List GoString) : GoString :=
  "[".toList ++ List.intercalate " ".toList xs ++ "]".toList

/-- The loop both `backupGithub` and `backupGitLab` run over the discovered
repositories (lines 69-74 and 90-95): an error of `BackupRepo` is printed and
the loop goes on. -/
def backupLoop (rt : Runtime) (token : GoString) : List GoString → World → World
  | [], w => w
  | repo :: repos, w =>
    match BackupRepo rt repo token w with
    | (some err, w) =>
      backupLoop rt token repos
        (w.print ("Error cloning repository: ".toList ++ err ++ "\n".toList))
    | (none, w) => backupLoop rt token repos w

/-- The function `backupGithub`. -/
def backupGithub (c : GitHubClient) (rt : Runtime) (token : GoString) (fuel : Nat) (w : World) :
    Option (Option GoString × World) :=
  match GetAllGithubRepos c token fuel w with
  | none => none
  | some (.error err, w) =>
    some (some err, w.print ("Error getting github repositories: ".toList ++ err ++ "\n".toList))
  | some (.ok repos, w) =>
    let w := w.print ("Github repositories: ".toList ++ formatSlice repos ++ "\n".toList)
    some (none, backupLoop rt token repos w)

/-- The function `backupGitLab`. -/
def backupGitLab (c : GitLabClient) (rt : Runtime) (token : GoString) (fuel : Nat) (w : World) :
    Option (Option GoString × World) :=
  match GetAllGitLabRepos c token fuel w with
  | none => none
  | some (.error err, w) =>
    some (some err, w.print ("Error getting gitlab repositories: ".toList ++ err ++ "\n".toList))
  | some (.ok repos, w) =>
    let w := w.print ("GitLab repositories: ".toList ++ formatSlice repos ++ "\n".toList)
    some (none, backupLoop rt token repos w)

/-- Go's `strconv.Atoi`: an optional sign and at least one decimal digit, within the
range of a 64-bit `int`; the error carries only its kind. -/
def Atoi (s : GoString) : Except GoString Int :=
  let negative : Bool := s.head? = some '-'
  let digits := if s.head? = some '-' ∨ s.head? = some '+' then s.drop 1 else s
  if digits = [] ∨ ¬ digits.all Char.isDigit then .error "invalid syntax".toList
  else
    let n : Nat := digits.foldl (fun n ch => n * 10 + (ch.toNat - '0'.toNat)) 0
    let v : Int := if negative then -(n : Int) else (n : Int)
    if v < -(2 : Int) ^ 63 ∨ (2 : Int) ^ 63 - 1 < v then .error "value out of range".toList
    else .ok v

/-- Lines 36-41 of `main`: one `backupGithub` per token, its error printed. -/
def githubTokenLoop (c : GitHubClient) (rt : Runtime) (fuel : Nat) :
    List GoString → World → Option World
  | [], w => some w
  | token :: tokens, w =>
    match backupGithub c rt token fuel w with
    | none => none
    | some (some err, w) =>
      githubTokenLoop c rt fuel tokens
        (w.print ("Error backing up github: ".toList ++ err ++ "\n".toList))
    | some (none, w) => githubTokenLoop c rt fuel tokens w

/-- Lines 43-48 of `main`: one `backupGitLab` per token, its error printed. -/
def gitlabTokenLoop (c : GitLabClient) (rt : Runtime) (fuel : Nat) :
    List GoString → World → Option World
  | [], w => some w
  | token :: tokens, w =>
    match backupGitLab c rt token fuel w with
    | none => none
    | some (some err, w) =>
      gitlabTokenLoop c rt fuel tokens
        (w.print ("Error backing up gitlab: ".toList ++ err ++ "\n".toList))
    | some (none, w) => gitlabTokenLoop c rt fuel tokens w

/-- The outer `for` of `main`, lines 34-54, bounded by `passes`; the sleep
between two passes is not modelled. -/
def mainLoop (gh : GitHubClient) (gl : GitLabClient) (rt : Runtime) (fuel : Nat)
    (githubTokens gitlabTokens : List GoString) (repeatInt : Int) :
    Nat → World → Option World
  | 0, _ => none
  | passes + 1, w =>
    match githubTokenLoop gh rt fuel githubTokens w with
    | none => none
    | some w =>
      match gitlabTokenLoop gl rt fuel gitlabTokens w with
      | none => none
      | some w =>
        if repeatInt = -1 then some w
        else mainLoop gh gl rt fuel githubTokens gitlabTokens repeatInt passes w

/-- The function `main`: `fuel` bounds every paginated listing, `passes` the number of
backup passes; `none` means a bound was reached. -/
def main (gh : GitHubClient) (gl : GitLabClient) (rt : Runtime) (fuel passes : Nat)
    (w : World) : Option World :=
  let githubTokens := Split (rt.Getenv "GITHUB_TOKENS".toList) ",".toList
  let gitlabTokens := Split (rt.Getenv "GITLAB_TOKENS".toList) ",".toList
  if gitlabTokens.length = 0 ∧ githubTokens.length = 0 then
    some (w.print "GITLAB_TOKENS or GITHUB_TOKENS is not set\n".toList)
  else
    let interval := rt.Getenv "REPEAT_INTERVAL".toList
    let interval := if interval = [] then "-1".toList else interval
    match Atoi interval with
    | .error err =>
      some (w.print ("Error converting REPEAT_INTERVAL to int: ".toList ++ err ++ "\n".toList))
    | .ok repeatInt => mainLoop gh gl rt fuel githubTokens gitlabTokens repeatInt passes w

/-! ## The local key: its alphabet and the specification's derivation -/

/-- The alphabet `[a-z0-9_-]` of a local directory name. -/
def keyChar (c : Char) : Bool :=
  ('a' ≤ c ∧ c ≤ 'z') ∨ ('0' ≤ c ∧ c ≤ '9') ∨ c = '-' ∨ c = '_'

/-- What line 23 of `BackupRepo` does to one rune: replaced when the class
matches, then lower-cased. -/
def keyRune (tbl : Char → Char) (c : Char) : Char :=
  unicodeToLower tbl (if nonAlnumDash c then '_' else c)

/-- The characters the specification's derivation keeps: `[a-z0-9-]`. -/
def lowerAlnumDash (c : Char) : Bool :=
  ('a' ≤ c ∧ c ≤ 'z') ∨ ('0' ≤ c ∧ c ≤ '9') ∨ c = '-'

/-- What the specification's derivation does to one rune: lower-cased first,
then replaced when it is outside `[a-z0-9-]`. -/
def normalizeRune (tbl : Char → Char) (c : Char) : Char :=
  if lowerAlnumDash (unicodeToLower tbl c) then unicodeToLower tbl c else '_'

/-- The local key as the specification derives it: strip the scheme prefix and
the credential-embedding prefix, strip a trailing `.git` (exactly those four
characters), lower-case, then replace every character outside `[a-z0-9-]` by
one `_`. -/
def normalize (tbl : Char → Char) (url : GoString) : GoString :=
  let s := TrimPrefix (TrimPrefix url "https://".toList) "git@".toList
  let s := if ".git".toList.isSuffixOf s then s.take (s.length - 4) else s
  (ToLower tbl s).map fun c => if lowerAlnumDash c then c else '_'

/-- KELVIN SIGN, U+212A, whose lower-case form in Unicode is the ASCII letter
`k`. -/
def kelvinSign : Char := Char.ofNat 0x212A

/-! ## Concrete inputs for the examples -/

/-- A world in which nothing exists and nothing has happened yet. -/
def emptyWorld : World :=
  { paths := [], ran := [], sent := [], stdout := [] }

/-- The final element of a slash-separated path. -/
def baseName (path : GoString) : GoString :=
  (path.reverse.takeWhile fun c => c ≠ '/').reverse

/-- A slash-separated path without its final element and the slash before
it. -/
def parentDir (path : GoString) : GoString :=
  ((path.reverse.dropWhile fun c => c ≠ '/').drop 1).reverse

/-- A world in which the default storage root `repos` exists and is empty. -/
def storageRootOnly : World :=
  { emptyWorld with paths := ["repos".toList] }

/-- The remote URL `https://h/` followed by 300 times `a`. -/
def longURL : GoString :=
  "https://h/".toList ++ List.replicate 300 'a'

/-- A runtime with no environment variable set, a case table whose one entry
above U+007F is U+212A ↦ `k`, the Unix `Join`, an `os.Stat` as on Linux with
every directory accessible (no error for an existing path, ENAMETOOLONG for a
name of more than 255 bytes inside an existing directory, ENOENT otherwise),
and a git that always succeeds: a clone creates its target path, a fetch
creates nothing. -/
def exampleRuntime : Runtime :=
  { lowerTable := fun c => if c = kelvinSign then 'k' else c
    Join := Join
    Getenv := fun _ => []
    Stat := fun path w =>
      if path ∈ w.paths then .found
      else if parentDir path ∈ w.paths ∧ 255 < (baseName path).length then .otherError
      else .notExist
    CombinedOutput := fun cmd w =>
      { output := []
        err := none
        paths :=
          match cmd.args with
          | [_, _, _, target] => w.paths ++ [target]
          | _ => w.paths } }

/-- The Go results of a call, without the world it leaves behind. -/
def returned {α : Type} (r : Option (α × World)) : Option α :=
  r.map Prod.fst

/-- What the listing of one namespace adds to the result of an enumeration: its
URLs when the listing returned without error, nothing otherwise. -/
def contribution : Option (Except GoString (List GoString)) → List GoString
  | some (.ok urls) => urls
  | _ => []

/-- Whether a reply makes its caller return an error: `client.Do` failed, the
status is not 200, or the body cannot be read or decoded. -/
def Reply.fails {α : Type} : Reply α → Bool
  | .failed _ => true
  | .response _ (.error _) => true
  | .response status (.ok _) => status != 200

/-- The clone URLs on pages 1 to `k` of a GitHub listing, in order. -/
def cloneURLs (src : Nat → List GitHubRepo) (k : Nat) : List GoString :=
  (List.range' 1 k).flatMap fun p => (src p).map fun repo => repo.CloneURL

/-- The HTTPS URLs on pages 1 to `k` of a GitLab listing, in order. -/
def projectURLs (src : Nat → List GitLabRepo) (k : Nat) : List GoString :=
  (List.range' 1 k).flatMap fun p => (src p).map fun repo => repo.HTTPURLToRepo

/-- The GitHub listing at `url` succeeds on every page: pages 1 to `k` are
answered with status 200 and the repositories `src p`, the pages before `k`
are full (at least 100 items) and page `k` is the first short one. -/
def GitHubListingSucceeds (c : GitHubClient) (token url : GoString)
    (src : Nat → List GitHubRepo) (k : Nat) : Prop :=
  1 ≤ k
    ∧ (∀ p, 1 ≤ p → p ≤ k →
        c.repos (githubRequest token (pageURL url p)) = .response 200 (.ok (src p)))
    ∧ (∀ p, 1 ≤ p → p < k → 100 ≤ (src p).length)
    ∧ (src k).length < 100

/-- The GitHub listing at `url` fails on page `j`: the pages before `j` are
answered with status 200 and the full pages `src p`, and the request for page
`j` fails. -/
def GitHubListingFails (c : GitHubClient) (token url : GoString)
    (src : Nat → List GitHubRepo) (j : Nat) : Prop :=
  1 ≤ j
    ∧ (∀ p, 1 ≤ p → p < j →
        c.repos (githubRequest token (pageURL url p)) = .response 200 (.ok (src p))
          ∧ 100 ≤ (src p).length)
    ∧ (c.repos (githubRequest token (pageURL url j))).fails = true

/-- The GitLab listing at `url` succeeds on every page: pages 1 to `k` are
answered with status 200 and the projects `src p`, the pages before `k` are
full (at least 100 items) and page `k` is the first short one. -/
def GitLabListingSucceeds (c : GitLabClient) (token url : GoString)
    (src : Nat → List GitLabRepo) (k : Nat) : Prop :=
  1 ≤ k
    ∧ (∀ p, 1 ≤ p → p ≤ k →
        c.repos (gitlabRequest token (pageURL url p)) = .response 200 (.ok (src p)))
    ∧ (∀ p, 1 ≤ p → p < k → 100 ≤ (src p).length)
    ∧ (src k).length < 100

/-- The GitLab listing at `url` fails on page `j`: the pages before `j` are
answered with status 200 and the full pages `src p`, and the request for page
`j` fails. -/
def GitLabListingFails (c : GitLabClient) (token url : GoString)
    (src : Nat → List GitLabRepo) (j : Nat) : Prop :=
  1 ≤ j
    ∧ (∀ p, 1 ≤ p → p < j →
        c.repos (gitlabRequest token (pageURL url p)) = .response 200 (.ok (src p))
          ∧ 100 ≤ (src p).length)
    ∧ (c.repos (gitlabRequest token (pageURL url j))).fails = true

/-- A repository record with the given clone URL. -/
def githubRepoAt (cloneURL : GoString) : GitHubRepo :=
  { FullName := [], CloneURL := cloneURL, SSHURL := [], Private := false }

/-- A project record with the given HTTPS URL. -/
def gitlabRepoAt (httpURL : GoString) : GitLabRepo :=
  { ID := 0, Name := [], PathWithNamespace := [], HTTPURLToRepo := httpURL, SSHURLToRepo := [],
    Visibility := [], Archived := false }

/-- The base URL of the listing used in the pagination examples. -/
def listURL : GoString := "https://api.github.com/orgs/o/repos?type=all&per_page=100".toList

/-- A listing of 100, 100 and 37 repositories on pages 1, 2 and 3. -/
def threePages (page : Nat) : List GitHubRepo :=
  if page = 1 ∨ page = 2 then List.replicate 100 (githubRepoAt "https://github.com/o/r.git".toList)
  else List.replicate 37 (githubRepoAt "https://github.com/o/r.git".toList)

/-- A GitHub whose listing at `listURL` is `threePages`. -/
def pagedGitHub : GitHubClient :=
  { user := fun _ => .failed []
    orgs := fun _ => .failed []
    repos := fun req =>
      if req.url = pageURL listURL 1 ∨ req.url = pageURL listURL 2 then .response 200 (.ok (threePages 1))
      else .response 200 (.ok (threePages 3)) }

/-- A listing of 100 projects on page 1 and none on page 2. -/
def twoPages (page : Nat) : List GitLabRepo :=
  if page = 1 then List.replicate 100 (gitlabRepoAt "https://gitlab.com/o/r.git".toList) else []

/-- A GitLab whose listing at `listURL` is `twoPages`. -/
def pagedGitLab : GitLabClient :=
  { user := fun _ => .failed []
    groups := fun _ => .failed []
    repos := fun req =>
      if req.url = pageURL listURL 1 then .response 200 (.ok (twoPages 1))
      else .response 200 (.ok (twoPages 2)) }

/-- A GitHub account `u` with one personal repository and the organizations
`a`, `b`, `c`; the listing of `b` has a full first page of 100 repositories
and its second page is answered with status 500. -/
def exampleGitHub : GitHubClient :=
  { user := fun _ => .response 200 (.ok { Login := "u".toList })
    orgs := fun _ =>
      .response 200 (.ok [{ Login := "a".toList }, { Login := "b".toList },
        { Login := "c".toList }])
    repos := fun req =>
      if req.url = "https://api.github.com/users/u/repos?type=all&per_page=100&page=1".toList
      then .response 200 (.ok [githubRepoAt "https://github.com/u/p.git".toList])
      else if req.url = "https://api.github.com/orgs/a/repos?type=all&per_page=100&page=1".toList
      then .response 200 (.ok [githubRepoAt "https://github.com/a/x.git".toList])
      else if req.url = "https://api.github.com/orgs/b/repos?type=all&per_page=100&page=1".toList
      then .response 200 (.ok (List.replicate 100 (githubRepoAt "https://github.com/b/z.git".toList)))
      else if req.url = "https://api.github.com/orgs/b/repos?type=all&per_page=100&page=2".toList
      then .response 500 (.error [])
      else if req.url = "https://api.github.com/orgs/c/repos?type=all&per_page=100&page=1".toList
      then .response 200 (.ok [githubRepoAt "https://github.com/c/y.git".toList])
      else .response 200 (.ok []) }

/-- A GitLab account with id 7, one personal project and the groups 1, 2, 3;
the listing of group 2 has a full first page of 100 projects and its second
page is answered with status 500. -/
def exampleGitLab : GitLabClient :=
  { user := fun _ => .response 200 (.ok { ID := 7, Username := "u".toList })
    groups := fun _ =>
      .response 200 (.ok [{ ID := 1, Name := "a".toList, Path := "a".toList },
        { ID := 2, Name := "b".toList, Path := "b".toList },
        { ID := 3, Name := "c".toList, Path := "c".toList }])
    repos := fun req =>
      if req.url
        = "https://gitlab.com/api/v4/users/7/projects?membership=true&per_page=100&page=1".toList
      then .response 200 (.ok [gitlabRepoAt "https://gitlab.com/u/p.git".toList])
      else if req.url = "https://gitlab.com/api/v4/groups/1/projects?per_page=100&page=1".toList
      then .response 200 (.ok [gitlabRepoAt "https://gitlab.com/a/x.git".toList])
      else if req.url = "https://gitlab.com/api/v4/groups/2/projects?per_page=100&page=1".toList
      then .response 200 (.ok (List.replicate 100 (gitlabRepoAt "https://gitlab.com/b/z.git".toList)))
      else if req.url = "https://gitlab.com/api/v4/groups/2/projects?per_page=100&page=2".toList
      then .response 500 (.error [])
      else if req.url = "https://gitlab.com/api/v4/groups/3/projects?per_page=100&page=1".toList
      then .response 200 (.ok [gitlabRepoAt "https://gitlab.com/c/y.git".toList])
      else .response 200 (.ok []) }

/-- A GitHub that answers every request with status 401. -/
def rejectingGitHub : GitHubClient :=
  { user := fun _ => .response 401 (.error [])
    orgs := fun _ => .response 401 (.error [])
    repos := fun _ => .response 401 (.error []) }

/-- A GitLab that answers every request with status 401. -/
def rejectingGitLab : GitLabClient :=
  { user := fun _ => .response 401 (.error [])
    groups := fun _ => .response 401 (.error [])
    repos := fun _ => .response 401 (.error []) }

/-- The example runtime with a git that fails on every command and creates
nothing. -/
def failingRuntime : Runtime :=
  { exampleRuntime with
    CombinedOutput := fun _ w =>
      { output := "fatal".toList, err := some "exit status 128".toList, paths := w.paths } }

/-- The pages of the organizations of `exampleGitHub`: one repository for `a`
and for `c`, full pages of 100 repositories for `b`. -/
def exampleOrgPages (org : GoString) (_page : Nat) : List GitHubRepo :=
  if org = "a".toList then [githubRepoAt "https://github.com/a/x.git".toList]
  else if org = "b".toList
  then List.replicate 100 (githubRepoAt "https://github.com/b/z.git".toList)
  else [githubRepoAt "https://github.com/c/y.git".toList]

/-- The pages of the groups of `exampleGitLab`: one project for groups 1 and
3, full pages of 100 projects for group 2. -/
def exampleGroupPages (group : Int) (_page : Nat) : List GitLabRepo :=
  if group = 1 then [gitlabRepoAt "https://gitlab.com/a/x.git".toList]
  else if group = 2 then List.replicate 100 (gitlabRepoAt "https://gitlab.com/b/z.git".toList)
  else [gitlabRepoAt "https://gitlab.com/c/y.git".toList]

/-! # Theorems -/

/-! ## String lemmas -/

theorem hasPrefix_append (pre s g : GoString) (d : Char) (g' : GoString)
    (hg : g = d :: g') (hd : d ∉ pre) :
    HasPrefix (s ++ g) pre = HasPrefix s pre := by
  subst hg
  unfold HasPrefix
  induction pre generalizing s with
  | nil => simp [List.isPrefixOf]
  | cons a pre ih =>
    have ha : a ≠ d := fun h => hd (by simp [h])
    have hpre : d ∉ pre := fun h => hd (by simp [h])
    cases s with
    | nil => simp [List.isPrefixOf, ha]
    | cons b s => simp [List.isPrefixOf, ih s hpre]

theorem hasPrefix_length_le {s pre : GoString} (h : HasPrefix s pre = true) :
    pre.length ≤ s.length := by
  unfold HasPrefix at h
  exact (List.isPrefixOf_iff_prefix.mp h).length_le

theorem trimPrefix_append (pre s g : GoString) (d : Char) (g' : GoString)
    (hg : g = d :: g') (hd : d ∉ pre) :
    TrimPrefix (s ++ g) pre = TrimPrefix s pre ++ g := by
  unfold TrimPrefix
  rw [hasPrefix_append pre s g d g' hg hd]
  by_cases h : HasPrefix s pre = true
  · simp only [h, if_true]
    exact List.drop_append_of_le_length (hasPrefix_length_le h)
  · simp [h]

theorem trimPrefix_suffix (s pre : GoString) : TrimPrefix s pre <:+ s := by
  unfold TrimPrefix
  split
  · exact List.drop_suffix _ _
  · exact List.suffix_refl _

theorem extScan_dot (r acc out : GoString) (h : extScan r acc = out) (hne : out ≠ []) :
    ∃ pre post, r = pre ++ '.' :: post ∧ out = '.' :: (pre.reverse ++ acc) := by
  induction r generalizing acc with
  | nil => simp [extScan] at h; exact absurd h hne
  | cons c r ih =>
    unfold extScan at h
    by_cases h1 : c = '/'
    · simp [h1] at h; exact absurd h hne
    · by_cases h2 : c = '.'
      · subst h2
        simp at h
        exact ⟨[], r, by simp, by simp [h]⟩
      · simp only [h1, h2, if_false] at h
        obtain ⟨pre, post, hr, ho⟩ := ih (c :: acc) h
        exact ⟨c :: pre, post, by simp [hr], by simp [ho]⟩

theorem Ext_eq_git_iff (x : GoString) : Ext x = ".git".toList ↔ ".git".toList <:+ x := by
  constructor
  · intro h
    obtain ⟨pre, post, hr, ho⟩ := extScan_dot x.reverse [] _ h (by decide)
    have hpre : pre.reverse = ['g', 'i', 't'] := by
      have : ".git".toList = ['.', 'g', 'i', 't'] := rfl
      rw [this] at ho
      simpa using ho.symm
    have hpre' : pre = ['t', 'i', 'g'] := by
      have := congrArg List.reverse hpre
      simpa using this
    have hx : x = post.reverse ++ ".git".toList := by
      have := congrArg List.reverse hr
      rw [List.reverse_reverse] at this
      rw [this, hpre']
      simp
    exact ⟨post.reverse, hx.symm⟩
  · rintro ⟨p, rfl⟩
    have : ".git".toList = ['.', 'g', 'i', 't'] := rfl
    rw [this]
    simp [Ext, extScan]

theorem trimmedName_append_git (x : GoString) :
    trimmedName (x ++ ".git".toList) = trimmedName x ++ ".git".toList := by
  have hg : ".git".toList = '.' :: "git".toList := rfl
  unfold trimmedName
  rw [trimPrefix_append _ _ _ '.' _ hg (by decide), trimPrefix_append _ _ _ '.' _ hg (by decide)]

theorem trimmedName_suffix (s : GoString) : trimmedName s <:+ s :=
  (trimPrefix_suffix _ _).trans (trimPrefix_suffix _ _)

theorem strippedName_eq (repo : GoString) :
    strippedName repo =
      if Ext (trimmedName repo) = ".git".toList
      then (trimmedName repo).take ((trimmedName repo).length - 4)
      else trimmedName repo := rfl

theorem strippedName_git (x : GoString) :
    strippedName (x ++ ".git".toList) = trimmedName x := by
  have e3 : Ext (trimmedName x ++ ".git".toList) = ".git".toList :=
    (Ext_eq_git_iff _).mpr ⟨_, rfl⟩
  have e4 : (".git".toList : GoString).length = 4 := rfl
  rw [strippedName_eq, trimmedName_append_git, if_pos e3, List.length_append, e4,
    Nat.add_sub_cancel]
  simp

theorem strippedName_no_git (s : GoString) (h : ¬ ".git".toList <:+ s) :
    strippedName s = trimmedName s := by
  have e2 : ¬ Ext (trimmedName s) = ".git".toList :=
    fun hx => h (((Ext_eq_git_iff _).mp hx).trans (trimmedName_suffix s))
  rw [strippedName_eq, if_neg e2]

theorem strippedName_append_git (s : GoString) (h : ¬ ".git".toList <:+ s) :
    strippedName (s ++ ".git".toList) = strippedName s := by
  rw [strippedName_git, strippedName_no_git s h]

/-! ## Rune lemmas -/

theorem char_le_iff (a b : Char) : a ≤ b ↔ a.toNat ≤ b.toNat := by
  simp [Char.le_def, UInt32.le_def, BitVec.le_def, Char.toNat, UInt32.toNat]

theorem replaceAll_eq_map (cls : Char → Bool) (r : Char) (s : GoString) :
    ReplaceAllString cls s [r] = s.map fun c => if cls c then r else c := by
  unfold ReplaceAllString
  induction s with
  | nil => rfl
  | cons c s ih =>
    simp only [List.flatMap_cons, List.map_cons, ih]
    split <;> simp

theorem repoName_eq_map (tbl : Char → Char) (repo : GoString) :
    repoName tbl repo = (strippedName repo).map (keyRune tbl) := by
  have h : "_".toList = ['_'] := rfl
  unfold repoName ToLower
  rw [h, replaceAll_eq_map, List.map_map]
  rfl

theorem nonAlnumDash_of_nonASCII (c : Char) (h : 0x7F < c.toNat) : nonAlnumDash c = true := by
  have e1 : 'z'.toNat = 122 := rfl
  have e2 : 'Z'.toNat = 90 := rfl
  have e3 : '9'.toNat = 57 := rfl
  have e4 : c ≠ '-' := by
    rintro rfl
    exact absurd h (by decide)
  simp only [nonAlnumDash, char_le_iff, e1, e2, e3, e4]
  simp
  omega

theorem unicodeToLower_ascii (tbl : Char → Char) (c : Char) (h : c.toNat ≤ 0x7F) :
    unicodeToLower tbl c = unicodeToLower (fun r => r) c := by
  simp [unicodeToLower, h]

theorem keyRune_ascii (tbl : Char → Char) (c : Char) (h : c.toNat ≤ 0x7F) :
    keyRune tbl c = keyRune (fun r => r) c := by
  unfold keyRune
  split
  · exact unicodeToLower_ascii tbl '_' (by decide)
  · exact unicodeToLower_ascii tbl c h

theorem keyRune_nonASCII (tbl : Char → Char) (c : Char) (h : 0x7F < c.toNat) :
    keyRune tbl c = '_' := by
  unfold keyRune
  rw [nonAlnumDash_of_nonASCII c h, if_pos rfl]
  rfl

set_option maxRecDepth 100000 in
theorem keyRune_ascii_table :
    ∀ n, n < 128 → keyChar (keyRune (fun r => r) (Char.ofNat n)) = true := by
  decide

set_option maxRecDepth 100000 in
theorem keyRune_normalizeRune_table :
    ∀ n, n < 128 →
      keyRune (fun r => r) (Char.ofNat n) = normalizeRune (fun r => r) (Char.ofNat n) := by
  decide

theorem keyChar_keyRune (tbl : Char → Char) (c : Char) : keyChar (keyRune tbl c) = true := by
  by_cases h : c.toNat ≤ 0x7F
  · rw [keyRune_ascii tbl c h]
    have := keyRune_ascii_table c.toNat (by omega)
    rwa [Char.ofNat_toNat] at this
  · rw [keyRune_nonASCII tbl c (by omega)]
    rfl

theorem keyRune_eq_normalizeRune (tbl : Char → Char) (c : Char)
    (h : 0x7F < c.toNat → lowerAlnumDash (tbl c) = false) :
    keyRune tbl c = normalizeRune tbl c := by
  by_cases hc : c.toNat ≤ 0x7F
  · rw [keyRune_ascii tbl c hc]
    have := keyRune_normalizeRune_table c.toNat (by omega)
    rw [Char.ofNat_toNat] at this
    rw [this]
    unfold normalizeRune
    rw [unicodeToLower_ascii tbl c hc]
  · have hc' : 0x7F < c.toNat := by omega
    rw [keyRune_nonASCII tbl c hc']
    have hl : unicodeToLower tbl c = tbl c := by simp [unicodeToLower, hc]
    unfold normalizeRune
    rw [hl, h hc']
    rfl

theorem normalize_eq_map (tbl : Char → Char) (url : GoString) :
    normalize tbl url = (strippedName url).map (normalizeRune tbl) := by
  unfold normalize strippedName ToLower normalizeRune
  have hs : ∀ t : GoString, (".git".toList.isSuffixOf t = true) ↔ (Ext t = ".git".toList) := by
    intro t
    rw [Ext_eq_git_iff, List.isSuffixOf_iff_suffix]
  simp only [hs, List.map_map]
  rfl

/-! ## `strings.Split` -/

theorem splitLoop_ne_nil (sep : GoString) (k : Nat) (s cur : List Char) :
    1 ≤ (splitLoop sep k s cur).length := by
  induction s generalizing k cur with
  | nil => cases k <;> simp [splitLoop]
  | cons c s ih =>
    cases k with
    | zero =>
      unfold splitLoop
      split
      · simp
      · exact ih 0 _
    | succ k =>
      unfold splitLoop
      exact ih k cur

theorem splitLoop_no_infix (sep : GoString) (s cur : List Char) (h : ¬ sep <:+: s) :
    splitLoop sep 0 s cur = [cur.reverse ++ s] := by
  induction s generalizing cur with
  | nil => simp [splitLoop]
  | cons c s ih =>
    have h1 : sep.isPrefixOf (c :: s) = false := by
      cases hp : sep.isPrefixOf (c :: s) with
      | false => rfl
      | true => exact absurd (List.isPrefixOf_iff_prefix.mp hp).isInfix h
    have h2 : ¬ sep <:+: s := fun hi => h (List.infix_cons hi)
    unfold splitLoop
    simp only [h1, Bool.false_eq_true, if_false]
    rw [ih (c :: cur) h2]
    simp

theorem splitLoop_infix (sep : GoString) (s cur : List Char) (hsep : sep ≠ [])
    (h : sep <:+: s) : 2 ≤ (splitLoop sep 0 s cur).length := by
  induction s generalizing cur with
  | nil => exact absurd (List.infix_nil.mp h) hsep
  | cons c s ih =>
    unfold splitLoop
    split
    · have := splitLoop_ne_nil sep (sep.length - 1) s []
      simp only [List.length_cons]
      omega
    · rename_i hp
      rcases List.infix_cons_iff.mp h with hpre | hin
      · exact absurd (List.isPrefixOf_iff_prefix.mpr hpre) hp
      · exact ih _ hin

theorem split_https (rest : GoString) :
    Split ("https://".toList ++ rest) "://".toList
      = "https".toList :: splitLoop "://".toList 0 rest [] := by
  have h1 : "https://".toList = ['h', 't', 't', 'p', 's', ':', '/', '/'] := rfl
  have h2 : "://".toList = [':', '/', '/'] := rfl
  have h3 : "https".toList = ['h', 't', 't', 'p', 's'] := rfl
  rw [h1, h2, h3]
  simp [Split, splitLoop, List.isPrefixOf]

theorem authRepo_https (tok rest : GoString) (htok : tok ≠ []) :
    authRepo ("https://".toList ++ rest) tok =
      match splitLoop "://".toList 0 rest [] with
      | [p1] => "https".toList ++ "://".toList ++ tok ++ "@".toList ++ p1
      | _ => "https://".toList ++ rest := by
  have hp : HasPrefix ("https://".toList ++ rest) "https://".toList = true := by
    unfold HasPrefix
    exact List.isPrefixOf_iff_prefix.mpr (List.prefix_append _ _)
  unfold authRepo
  simp only [htok, hp, ne_eq, not_false_eq_true, and_self, if_true, split_https]
  rcases splitLoop "://".toList 0 rest [] with _ | ⟨a, _ | ⟨b, l⟩⟩ <;> rfl

/-! ## `BackupRepo`: the local key -/

theorem strippedName_subset (url : GoString) : ∀ c ∈ strippedName url, c ∈ url := by
  intro c hc
  have hsuf : TrimPrefix (TrimPrefix url "https://".toList) "git@".toList <:+ url :=
    trimmedName_suffix url
  unfold strippedName at hc
  simp only at hc
  split at hc
  · exact hsuf.subset (List.take_subset _ _ hc)
  · exact hsuf.subset hc

/-- C6: a single trailing `.git` is stripped. For every URL string `s` that
does not itself end in `.git`, the local key derived from `s ++ ".git"` is the
key derived from `s`, and that key is line 23 applied to `s` with only the
transport prefixes trimmed; for every string `x`, also one that itself ends in
`.git`, the key of `x ++ ".git"` is line 23 applied to `x` with only the
transport prefixes trimmed, so exactly the last four characters are cut and
the key has as many characters as the trimmed `x` (`https://h/o/r.git.git`
gives `h_o_r_git`, `https://h/o/r.git` and `https://h/o/r` give `h_o_r`); and
the test `filepath.Ext(x) == ".git"` holds exactly when `x` ends with the four
characters `.git`. -/
theorem repoName_strips_one_git (tbl : Char → Char) (s x : GoString)
    (h : ¬ ".git".toList <:+ s) :
    repoName tbl (s ++ ".git".toList) = repoName tbl s
      ∧ repoName tbl s
        = ToLower tbl (ReplaceAllString nonAlnumDash
            (TrimPrefix (TrimPrefix s "https://".toList) "git@".toList) "_".toList)
      ∧ repoName tbl (x ++ ".git".toList)
        = ToLower tbl (ReplaceAllString nonAlnumDash
            (TrimPrefix (TrimPrefix x "https://".toList) "git@".toList) "_".toList)
      ∧ (repoName tbl (x ++ ".git".toList)).length
        = (TrimPrefix (TrimPrefix x "https://".toList) "git@".toList).length
      ∧ repoName tbl "https://h/o/r.git.git".toList = "h_o_r_git".toList
      ∧ repoName tbl "https://h/o/r.git".toList = "h_o_r".toList
      ∧ repoName tbl "https://h/o/r".toList = "h_o_r".toList
      ∧ (Ext x = ".git".toList ↔ ".git".toList <:+ x) := by
  refine ⟨?_, ?_, ?_, ?_, rfl, rfl, rfl, Ext_eq_git_iff x⟩
  · rw [repoName_eq_map, repoName_eq_map, strippedName_append_git s h]
  · unfold repoName
    rw [strippedName_no_git s h]
    rfl
  · unfold repoName
    rw [strippedName_git]
    rfl
  · rw [repoName_eq_map, strippedName_git, List.length_map]
    rfl

/-- C7 (amended): every character of the local key is a lower-case ASCII
letter, a digit, `-` or `_`; the key has exactly as many characters as what is
left of the URL once the leading `https://` and `git@` and the trailing `.git`
are removed, so it is non-empty exactly when that remainder is. -/
theorem repoName_alphabet (tbl : Char → Char) (repo : GoString) :
    (∀ c ∈ repoName tbl repo, keyChar c = true)
      ∧ (repoName tbl repo).length = (strippedName repo).length
      ∧ (repoName tbl repo ≠ [] ↔ strippedName repo ≠ []) := by
  rw [repoName_eq_map]
  refine ⟨?_, by simp, by simp⟩
  intro c hc
  obtain ⟨a, _, rfl⟩ := List.mem_map.mp hc
  exact keyChar_keyRune tbl a

/-- C7, counterexample: the non-empty string `https://.git` has the empty
local key, whatever the case table. -/
theorem repoName_empty_for_nonempty_url :
    "https://.git".toList ≠ [] ∧ ¬ ∃ tbl : Char → Char, repoName tbl "https://.git".toList ≠ [] := by
  refine ⟨by decide, ?_⟩
  rintro ⟨tbl, h⟩
  exact h rfl

/-- C9 (amended): for every URL string in which no character above U+007F
has a lower-case form inside `[a-z0-9-]` (in particular for every ASCII
string), the key the code computes equals the specification's derivation
(strip, lower-case first, then replace outside `[a-z0-9-]`), one `_` per
replaced character, so that the key is as long as the stripped string; and
`https://Host/Org/Repo.Name` gives `host_org_repo_name`. -/
theorem repoName_refines_normalize (tbl : Char → Char) (url : GoString)
    (h : ∀ c ∈ url, 0x7F < c.toNat → lowerAlnumDash (tbl c) = false) :
    repoName tbl url = normalize tbl url
      ∧ (repoName tbl url).length = (strippedName url).length
      ∧ repoName tbl "https://Host/Org/Repo.Name".toList = "host_org_repo_name".toList := by
  refine ⟨?_, by simp [repoName_eq_map], rfl⟩
  rw [repoName_eq_map, normalize_eq_map]
  apply List.map_congr_left
  intro c hc
  exact keyRune_eq_normalizeRune tbl c (h c (strippedName_subset url c hc))

/-- C9, counterexample: on the one-character string KELVIN SIGN (U+212A),
under every case table that lower-cases it to `k` as Unicode does, the code
computes `_` while the specification's derivation computes `k`. -/
theorem repoName_differs_from_normalize_on_kelvin :
    kelvinSign.toNat = 0x212A ∧
      ∀ tbl : Char → Char, tbl kelvinSign = 'k' →
        repoName tbl [kelvinSign] = ['_'] ∧ normalize tbl [kelvinSign] = ['k'] := by
  refine ⟨by decide, ?_⟩
  intro tbl hk
  have hs : strippedName [kelvinSign] = [kelvinSign] := by decide
  have hn : 0x7F < kelvinSign.toNat := by decide
  constructor
  · rw [repoName_eq_map, hs]
    simp [keyRune_nonASCII tbl kelvinSign hn]
  · rw [normalize_eq_map, hs]
    have hl : unicodeToLower tbl kelvinSign = 'k' := by
      unfold unicodeToLower
      rw [if_neg (by decide), hk]
    simp [normalizeRune, hl]
    decide

/-- C10 (amended): the two transport styles of the specification's example
get the same key, because `:` and `/` are both replaced by `_`: the key of
`https://host/a/b` and the key of `git@host:a/b` are both `host_a_b`. -/
theorem repoName_same_for_both_styles (tbl : Char → Char) :
    repoName tbl "https://host/a/b".toList = "host_a_b".toList
      ∧ repoName tbl "git@host:a/b".toList = "host_a_b".toList :=
  ⟨rfl, rfl⟩

/-- C10, counterexample: no case table makes the key of `https://host/a/b`
differ from the key of `git@host:a/b`. -/
theorem repoName_styles_not_different :
    ¬ ∃ tbl : Char → Char,
        repoName tbl "https://host/a/b".toList ≠ repoName tbl "git@host:a/b".toList := by
  rintro ⟨tbl, h⟩
  exact h rfl

/-! ## `BackupRepo`: the transport -/

theorem BackupRepo_absent (rt : Runtime) (repo token : GoString) (w : World)
    (h : rt.Stat (repoPath rt repo) w = .notExist) :
    (BackupRepo rt repo token w).2.ran = w.ran ++ [cloneCmd rt repo token]
      ∧ (BackupRepo rt repo token w).2.paths =
          (rt.CombinedOutput (cloneCmd rt repo token)
            (w.print ("Cloning repository ".toList ++ repo ++ " to ".toList ++ repoPath rt repo
              ++ "\n".toList))).paths
      ∧ ((BackupRepo rt repo token w).1 = none ↔
          (rt.CombinedOutput (cloneCmd rt repo token)
            (w.print ("Cloning repository ".toList ++ repo ++ " to ".toList ++ repoPath rt repo
              ++ "\n".toList))).err = none) := by
  unfold BackupRepo
  simp only [h, decide_True, if_true]
  split <;> simp_all [World.print]

theorem BackupRepo_present (rt : Runtime) (repo token : GoString) (w : World)
    (h : rt.Stat (repoPath rt repo) w ≠ .notExist) :
    (BackupRepo rt repo token w).2.ran = w.ran ++ [fetchCmd rt repo]
      ∧ (BackupRepo rt repo token w).2.paths =
          (rt.CombinedOutput (fetchCmd rt repo)
            (w.print ("Fetching updates from repository ".toList ++ repo ++ " to ".toList
              ++ repoPath rt repo ++ "\n".toList))).paths
      ∧ ((BackupRepo rt repo token w).1 = none ↔
          (rt.CombinedOutput (fetchCmd rt repo)
            (w.print ("Fetching updates from repository ".toList ++ repo ++ " to ".toList
              ++ repoPath rt repo ++ "\n".toList))).err = none) := by
  unfold BackupRepo
  simp only [h, decide_False, Bool.false_eq_true, if_false]
  split <;> simp_all [World.print]

/-- C1 (amended): for every non-empty credential `tok` and every remote URL
`"https://" ++ rest` in which `rest` does not contain `://`, the URL in the
clone command is exactly `"https://" ++ tok ++ "@" ++ rest`; when `rest` does
contain `://`, for every URL that does not begin with `https://`, and
whenever `tok` is empty, it is the original URL unchanged. The clone command
`git clone authRepo repoPath` is what `BackupRepo` runs when `os.Stat` reports
that the local path does not exist. -/
theorem authRepo_inserts_credential (rt : Runtime) (w : World) (repo tok rest : GoString) :
    (tok ≠ [] → ¬ "://".toList <:+: rest →
        authRepo ("https://".toList ++ rest) tok
          = "https://".toList ++ tok ++ "@".toList ++ rest)
      ∧ (tok ≠ [] → "://".toList <:+: rest →
        authRepo ("https://".toList ++ rest) tok = "https://".toList ++ rest)
      ∧ (HasPrefix repo "https://".toList = false → authRepo repo tok = repo)
      ∧ authRepo repo [] = repo
      ∧ (rt.Stat (repoPath rt repo) w = .notExist →
        (BackupRepo rt repo tok w).2.ran = w.ran ++
          [{ args := ["git".toList, "clone".toList, authRepo repo tok, repoPath rt repo],
             dir := [] }]) := by
  refine ⟨?_, ?_, ?_, ?_, ?_⟩
  · intro htok hno
    rw [authRepo_https tok rest htok, splitLoop_no_infix _ _ _ hno]
    simp
  · intro htok hin
    rw [authRepo_https tok rest htok]
    have := splitLoop_infix "://".toList rest [] (by decide) hin
    rcases hs : splitLoop "://".toList 0 rest [] with _ | ⟨a, _ | ⟨b, l⟩⟩
    · rfl
    · rw [hs] at this
      simp at this
    · rfl
  · intro hp
    unfold authRepo
    rw [if_neg]
    rintro ⟨_, h⟩
    rw [hp] at h
    exact absurd h (by decide)
  · simp [authRepo]
  · intro habs
    exact (BackupRepo_absent rt repo tok w habs).1

/-- C1, witness: the specification's example, an SSH-style URL, and the clone
command issued in an empty world. -/
theorem authRepo_inserts_credential_witness :
    authRepo "https://github.com/o/r.git".toList "TOK".toList
        = "https://TOK@github.com/o/r.git".toList
      ∧ authRepo "git@github.com:o/r.git".toList "TOK".toList = "git@github.com:o/r.git".toList
      ∧ (BackupRepo exampleRuntime "https://github.com/o/r.git".toList "TOK".toList
          emptyWorld).2.ran
        = [{ args := ["git".toList, "clone".toList, "https://TOK@github.com/o/r.git".toList,
                      "repos/github_com_o_r".toList],
             dir := [] }] :=
  ⟨(authRepo_inserts_credential exampleRuntime emptyWorld [] "TOK".toList
      "github.com/o/r.git".toList).1 (by decide) (by decide),
   (authRepo_inserts_credential exampleRuntime emptyWorld "git@github.com:o/r.git".toList
      "TOK".toList []).2.2.1 (by decide),
   (authRepo_inserts_credential exampleRuntime emptyWorld "https://github.com/o/r.git".toList
      "TOK".toList []).2.2.2.2 (by decide)⟩

/-- C1, counterexample: with a non-empty credential, the URL
`https://h/r?u=x://y` begins with `https://` and yet reaches the clone command
unchanged, without the credential. -/
theorem authRepo_unchanged_on_second_separator :
    authRepo "https://h/r?u=x://y".toList "TOK".toList = "https://h/r?u=x://y".toList
      ∧ authRepo ("https://".toList ++ "h/r?u=x://y".toList) "TOK".toList
          ≠ "https://".toList ++ "TOK".toList ++ "@".toList ++ "h/r?u=x://y".toList := by
  decide

/-- Two calls in a row where `os.Stat` behaves as the comment of line 26
assumes. When `os.Stat` reports not-exist for the local path and reports
something else once the path exists, with a git that always succeeds, whose
clone creates its target path and whose fetch creates none, two successive
`BackupRepo` calls run first `git clone` into `join(root, key)` and then
`git fetch --all` inside that same path; both return no error and the second
call leaves the set of paths as the first left it. -/
theorem BackupRepo_twice (rt : Runtime) (repo token : GoString) (w : World)
    (habsent : rt.Stat (repoPath rt repo) w = .notExist)
    (hstat : ∀ w1, repoPath rt repo ∈ w1.paths → rt.Stat (repoPath rt repo) w1 ≠ .notExist)
    (hok : ∀ cmd w1, (rt.CombinedOutput cmd w1).err = none)
    (hclone : ∀ url target w1,
      target ∈ (rt.CombinedOutput
        { args := ["git".toList, "clone".toList, url, target], dir := [] } w1).paths)
    (hfetch : ∀ dir w1,
      (rt.CombinedOutput
        { args := ["git".toList, "fetch".toList, "--all".toList], dir := dir } w1).paths
        = w1.paths) :
    (BackupRepo rt repo token w).1 = none
      ∧ (BackupRepo rt repo token (BackupRepo rt repo token w).2).1 = none
      ∧ (BackupRepo rt repo token (BackupRepo rt repo token w).2).2.ran = w.ran ++
          [{ args := ["git".toList, "clone".toList, authRepo repo token,
                      rt.Join (if rt.Getenv "REPOS_DIR".toList = [] then "./repos".toList
                               else rt.Getenv "REPOS_DIR".toList) (repoName rt.lowerTable repo)],
             dir := [] },
           { args := ["git".toList, "fetch".toList, "--all".toList],
             dir := rt.Join (if rt.Getenv "REPOS_DIR".toList = [] then "./repos".toList
                             else rt.Getenv "REPOS_DIR".toList) (repoName rt.lowerTable repo) }]
      ∧ (BackupRepo rt repo token (BackupRepo rt repo token w).2).2.paths
          = (BackupRepo rt repo token w).2.paths := by
  obtain ⟨hran1, hpaths1, herr1⟩ := BackupRepo_absent rt repo token w habsent
  have hin : repoPath rt repo ∈ (BackupRepo rt repo token w).2.paths := by
    rw [hpaths1]
    exact hclone _ _ _
  obtain ⟨hran2, hpaths2, herr2⟩ := BackupRepo_present rt repo token _ (hstat _ hin)
  refine ⟨herr1.mpr (hok _ _), herr2.mpr (hok _ _), ?_, ?_⟩
  · rw [hran2, hran1]
    simp [cloneCmd, fetchCmd, repoPath]
  · rw [hpaths2]
    exact hfetch _ _

theorem exampleRuntime_stat_found (path : GoString) (w : World) (h : path ∈ w.paths) :
    exampleRuntime.Stat path w = .found := by
  show (if path ∈ w.paths then StatResult.found else _) = StatResult.found
  rw [if_pos h]

/-- An instance of `BackupRepo_twice`: `https://github.com/o/r.git` backed up
twice into an empty world. -/
theorem BackupRepo_twice_example :
    (BackupRepo exampleRuntime "https://github.com/o/r.git".toList "TOK".toList
        (BackupRepo exampleRuntime "https://github.com/o/r.git".toList "TOK".toList
          emptyWorld).2).2.ran
      = [{ args := ["git".toList, "clone".toList, "https://TOK@github.com/o/r.git".toList,
                    "repos/github_com_o_r".toList],
           dir := [] },
         { args := ["git".toList, "fetch".toList, "--all".toList],
           dir := "repos/github_com_o_r".toList }] :=
  (BackupRepo_twice exampleRuntime "https://github.com/o/r.git".toList "TOK".toList emptyWorld
    (by decide) (fun w1 h => by rw [exampleRuntime_stat_found _ _ h]; decide) (fun _ _ => rfl)
    (fun _ _ _ => by simp [exampleRuntime]) (fun _ _ => rfl)).2.2.1

set_option maxRecDepth 100000 in
/-- C5, the code at the failing input: the storage root `repos` exists and is
empty, and the key of `https://h/` followed by 300 times `a` is longer than a
file name may be, so `os.Stat` fails with an error that is not not-exist.
Nothing exists at the local path, yet the first `BackupRepo` call runs
`git fetch --all` inside that path and no `git clone`; whenever `os.Stat`
fails in such a way, for any runtime and URL, the command run is the fetch. -/
theorem BackupRepo_fetches_into_missing_directory :
    repoPath exampleRuntime longURL ∉ storageRootOnly.paths
      ∧ exampleRuntime.Stat (repoPath exampleRuntime longURL) storageRootOnly = .otherError
      ∧ (BackupRepo exampleRuntime longURL "TOK".toList storageRootOnly).2.ran
        = [{ args := ["git".toList, "fetch".toList, "--all".toList],
             dir := repoPath exampleRuntime longURL }]
      ∧ (∀ (rt : Runtime) (repo token : GoString) (w : World),
          rt.Stat (repoPath rt repo) w = .otherError →
            (BackupRepo rt repo token w).2.ran = w.ran ++ [fetchCmd rt repo]) := by
  refine ⟨by decide, by decide, by decide, ?_⟩
  intro rt repo token w h
  exact (BackupRepo_present rt repo token w (by rw [h]; decide)).1

/-- C6, witness: `https://h/o/r.git` and `https://h/o/r` get the same key
`h_o_r`, and of `https://h/o/r.git.git` only the last `.git` is cut. -/
theorem repoName_strips_one_git_witness :
    repoName exampleRuntime.lowerTable "https://h/o/r.git".toList
        = repoName exampleRuntime.lowerTable "https://h/o/r".toList
      ∧ repoName exampleRuntime.lowerTable "https://h/o/r".toList = "h_o_r".toList
      ∧ repoName exampleRuntime.lowerTable "https://h/o/r.git.git".toList = "h_o_r_git".toList
      ∧ (Ext "h/o/r.git".toList = ".git".toList ↔ ".git".toList <:+ "h/o/r.git".toList) :=
  ⟨(repoName_strips_one_git exampleRuntime.lowerTable "https://h/o/r".toList
      "https://h/o/r.git".toList (by decide)).1,
   (repoName_strips_one_git exampleRuntime.lowerTable "https://h/o/r".toList
      "https://h/o/r.git".toList (by decide)).2.1.trans (by decide),
   (repoName_strips_one_git exampleRuntime.lowerTable "https://h/o/r".toList
      "https://h/o/r.git".toList (by decide)).2.2.1.trans (by decide),
   (repoName_strips_one_git exampleRuntime.lowerTable "https://h/o/r".toList
      "h/o/r.git".toList (by decide)).2.2.2.2.2.2.2⟩

/-- C9, witness: a mixed-case ASCII URL under the example case table. -/
theorem repoName_refines_normalize_witness :
    repoName exampleRuntime.lowerTable "https://GitHub.com/Org/Repo.Name.git".toList
      = normalize exampleRuntime.lowerTable "https://GitHub.com/Org/Repo.Name.git".toList :=
  (repoName_refines_normalize exampleRuntime.lowerTable
    "https://GitHub.com/Org/Repo.Name.git".toList (by decide)).1

/-- C7, witness: the key of a mixed-case clone URL. -/
theorem repoName_alphabet_witness :
    (∀ c ∈ repoName exampleRuntime.lowerTable "https://GitHub.com/Org/Repo.Name.git".toList,
        keyChar c = true)
      ∧ (repoName exampleRuntime.lowerTable "https://GitHub.com/Org/Repo.Name.git".toList).length
        = (strippedName "https://GitHub.com/Org/Repo.Name.git".toList).length :=
  ⟨(repoName_alphabet exampleRuntime.lowerTable
      "https://GitHub.com/Org/Repo.Name.git".toList).1,
   (repoName_alphabet exampleRuntime.lowerTable
      "https://GitHub.com/Org/Repo.Name.git".toList).2.1⟩

/-! ## Pagination -/

theorem getReposFromURLLoop_pages (c : GitHubClient) (token url : GoString)
    (src : Nat → List GitHubRepo) (k : Nat)
    (hsrc : ∀ p, 1 ≤ p → p ≤ k →
      c.repos (githubRequest token (pageURL url p)) = .response 200 (.ok (src p)))
    (hfull : ∀ p, 1 ≤ p → p < k → 100 ≤ (src p).length)
    (hshort : (src k).length < 100) :
    ∀ n p fuel acc w, p + n = k → 1 ≤ p → n < fuel →
      getReposFromURLLoop c token url fuel p acc w =
        some (.ok (acc ++ (List.range' p (n + 1)).flatMap
                fun q => (src q).map fun repo => repo.CloneURL),
              w.sendAll ((List.range' p (n + 1)).map
                fun q => githubRequest token (pageURL url q))) := by
  intro n
  induction n with
  | zero =>
    intro p fuel acc w hp h1 hf
    obtain ⟨f, rfl⟩ : ∃ f, fuel = f + 1 := ⟨fuel - 1, by omega⟩
    have hpk : p = k := by omega
    subst hpk
    unfold getReposFromURLLoop
    simp only [hsrc p h1 (le_refl _)]
    by_cases h0 : (src p).length = 0
    · have hnil : src p = [] := List.length_eq_zero.mp h0
      simp [h0, hnil, World.send, World.sendAll]
    · simp [h0, hshort, World.send, World.sendAll]
  | succ n ih =>
    intro p fuel acc w hp h1 hf
    obtain ⟨f, rfl⟩ : ∃ f, fuel = f + 1 := ⟨fuel - 1, by omega⟩
    have hlen := hfull p h1 (by omega)
    have h0 : ¬ (src p).length = 0 := by omega
    have h100 : ¬ (src p).length < 100 := by omega
    unfold getReposFromURLLoop
    simp only [hsrc p h1 (by omega)]
    simp only [h0, h100, ne_eq, not_true_eq_false, if_false]
    rw [ih (p + 1) f _ _ (by omega) (by omega) (by omega)]
    simp [World.send, World.sendAll, List.range'_succ]

theorem getGitLabReposFromURLLoop_pages (c : GitLabClient) (token url : GoString)
    (src : Nat → List GitLabRepo) (k : Nat)
    (hsrc : ∀ p, 1 ≤ p → p ≤ k →
      c.repos (gitlabRequest token (pageURL url p)) = .response 200 (.ok (src p)))
    (hfull : ∀ p, 1 ≤ p → p < k → 100 ≤ (src p).length)
    (hshort : (src k).length < 100) :
    ∀ n p fuel acc w, p + n = k → 1 ≤ p → n < fuel →
      getGitLabReposFromURLLoop c token url fuel p acc w =
        some (.ok (acc ++ (List.range' p (n + 1)).flatMap
                fun q => (src q).map fun repo => repo.HTTPURLToRepo),
              w.sendAll ((List.range' p (n + 1)).map
                fun q => gitlabRequest token (pageURL url q))) := by
  intro n
  induction n with
  | zero =>
    intro p fuel acc w hp h1 hf
    obtain ⟨f, rfl⟩ : ∃ f, fuel = f + 1 := ⟨fuel - 1, by omega⟩
    have hpk : p = k := by omega
    subst hpk
    unfold getGitLabReposFromURLLoop
    simp only [hsrc p h1 (le_refl _)]
    by_cases h0 : (src p).length = 0
    · have hnil : src p = [] := List.length_eq_zero.mp h0
      simp [h0, hnil, World.send, World.sendAll]
    · simp [h0, hshort, World.send, World.sendAll]
  | succ n ih =>
    intro p fuel acc w hp h1 hf
    obtain ⟨f, rfl⟩ : ∃ f, fuel = f + 1 := ⟨fuel - 1, by omega⟩
    have hlen := hfull p h1 (by omega)
    have h0 : ¬ (src p).length = 0 := by omega
    have h100 : ¬ (src p).length < 100 := by omega
    unfold getGitLabReposFromURLLoop
    simp only [hsrc p h1 (by omega)]
    simp only [h0, h100, ne_eq, not_true_eq_false, if_false]
    rw [ih (p + 1) f _ _ (by omega) (by omega) (by omega)]
    simp [World.send, World.sendAll, List.range'_succ]

/-- C2: when the listing source answers every page request with status 200
and a list of repositories, and `k` is the first page with fewer than 100
items, `getReposFromURL` (and in the same way `getGitLabReposFromURL`) returns
for every bound of at least `k` iterations: it sends exactly the requests for
pages 1, 2, ..., `k` in that order and returns the clone URLs of pages 1 to `k`
concatenated in order. -/
theorem pagination_stops_at_first_short_page
    (gh : GitHubClient) (gl : GitLabClient) (token url : GoString)
    (src : Nat → List GitHubRepo) (src' : Nat → List GitLabRepo) (k k' fuel : Nat) (w : World)
    (hk : 1 ≤ k) (hfuel : k ≤ fuel)
    (hsrc : ∀ p, 1 ≤ p → p ≤ k →
      gh.repos (githubRequest token (pageURL url p)) = .response 200 (.ok (src p)))
    (hfull : ∀ p, 1 ≤ p → p < k → 100 ≤ (src p).length)
    (hshort : (src k).length < 100)
    (hk' : 1 ≤ k') (hfuel' : k' ≤ fuel)
    (hsrc' : ∀ p, 1 ≤ p → p ≤ k' →
      gl.repos (gitlabRequest token (pageURL url p)) = .response 200 (.ok (src' p)))
    (hfull' : ∀ p, 1 ≤ p → p < k' → 100 ≤ (src' p).length)
    (hshort' : (src' k').length < 100) :
    getReposFromURL gh token url fuel w =
        some (.ok ((List.range' 1 k).flatMap fun p => (src p).map fun repo => repo.CloneURL),
              w.sendAll ((List.range' 1 k).map
                fun p => githubRequest token (pageURL url p)))
      ∧ getGitLabReposFromURL gl token url fuel w =
        some (.ok ((List.range' 1 k').flatMap
                fun p => (src' p).map fun repo => repo.HTTPURLToRepo),
              w.sendAll ((List.range' 1 k').map
                fun p => gitlabRequest token (pageURL url p))) := by
  constructor
  · have := getReposFromURLLoop_pages gh token url src k hsrc hfull hshort (k - 1) 1 fuel [] w
      (by omega) (le_refl _) (by omega)
    rw [show k - 1 + 1 = k by omega] at this
    simpa [getReposFromURL] using this
  · have := getGitLabReposFromURLLoop_pages gl token url src' k' hsrc' hfull' hshort' (k' - 1) 1
      fuel [] w (by omega) (le_refl _) (by omega)
    rw [show k' - 1 + 1 = k' by omega] at this
    simpa [getGitLabReposFromURL] using this

/-- C2, witness: pages of 100, 100 and 37 repositories give 237 URLs in the
three requests for pages 1, 2, 3; pages of 100 and 0 projects give 100 URLs in
the two requests for pages 1, 2. -/
theorem pagination_stops_at_first_short_page_witness :
    (getReposFromURL pagedGitHub "TOK".toList listURL 3 emptyWorld).map
        (fun r => (r.1.toOption.map List.length, r.2.sent.map fun req => req.url))
      = some (some 237, [pageURL listURL 1, pageURL listURL 2, pageURL listURL 3])
    ∧ (getGitLabReposFromURL pagedGitLab "TOK".toList listURL 3 emptyWorld).map
        (fun r => (r.1.toOption.map List.length, r.2.sent.map fun req => req.url))
      = some (some 100, [pageURL listURL 1, pageURL listURL 2]) := by
  have h := pagination_stops_at_first_short_page pagedGitHub pagedGitLab "TOK".toList listURL
    threePages twoPages 3 2 3 emptyWorld (by decide) (by decide)
    (by intro p h1 h2; interval_cases p <;> rfl)
    (by intro p h1 h2; interval_cases p <;> decide)
    (by decide) (by decide) (by decide)
    (by intro p h1 h2; interval_cases p <;> rfl)
    (by intro p h1 h2; interval_cases p; decide)
    (by decide)
  rw [h.1, h.2]
  constructor <;> rfl

/-! ## Enumeration: the result does not depend on the log, and only the log changes -/

theorem returned_eq_some {α : Type} {r : Option (α × World)} {a : α}
    (h : returned r = some a) : ∃ w, r = some (a, w) := by
  cases r with
  | none => simp [returned] at h
  | some x =>
    obtain ⟨b, w⟩ := x
    have hb : b = a := by simpa [returned] using h
    exact ⟨w, by rw [hb]⟩

theorem getReposFromURLLoop_returned (c : GitHubClient) (token url : GoString) :
    ∀ fuel p acc w w',
      returned (getReposFromURLLoop c token url fuel p acc w)
        = returned (getReposFromURLLoop c token url fuel p acc w') := by
  intro fuel
  induction fuel with
  | zero => intros; rfl
  | succ f ih =>
    intro p acc w w'
    unfold getReposFromURLLoop
    simp only
    cases c.repos (githubRequest token (pageURL url p)) with
    | failed err => rfl
    | response status decoded =>
      by_cases hs : status = 200
      · cases decoded with
        | error e => simp [hs, returned]
        | ok repos =>
          by_cases h0 : repos.length = 0
          · simp [hs, h0, returned]
          · by_cases h1 : repos.length < 100
            · simp [hs, h0, h1, returned]
            · simp only [hs, h0, h1, ne_eq, not_true_eq_false, if_false]
              exact ih _ _ _ _
      · simp [hs, returned]

theorem getReposFromURLLoop_frame (c : GitHubClient) (token url : GoString) :
    ∀ fuel p acc w r w', getReposFromURLLoop c token url fuel p acc w = some (r, w') →
      w'.ran = w.ran ∧ w'.paths = w.paths := by
  intro fuel
  induction fuel with
  | zero => intro p acc w r w' h; simp [getReposFromURLLoop] at h
  | succ f ih =>
    intro p acc w r w' h
    unfold getReposFromURLLoop at h
    simp only at h
    cases hc : c.repos (githubRequest token (pageURL url p)) with
    | failed err =>
      simp only [hc, Option.some.injEq, Prod.mk.injEq] at h
      rw [← h.2]; exact ⟨rfl, rfl⟩
    | response status decoded =>
      by_cases hs : status = 200
      · cases decoded with
        | error e =>
          simp only [hc, hs, ne_eq, not_true_eq_false, if_false, Option.some.injEq,
            Prod.mk.injEq] at h
          rw [← h.2]; exact ⟨rfl, rfl⟩
        | ok repos =>
          by_cases h0 : repos.length = 0
          · simp only [hc, hs, h0, ne_eq, not_true_eq_false, if_false, if_true,
              Option.some.injEq, Prod.mk.injEq] at h
            rw [← h.2]; exact ⟨rfl, rfl⟩
          · by_cases h1 : repos.length < 100
            · simp only [hc, hs, h0, h1, ne_eq, not_true_eq_false, if_false, if_true,
                Option.some.injEq, Prod.mk.injEq] at h
              rw [← h.2]; exact ⟨rfl, rfl⟩
            · simp only [hc, hs, h0, h1, ne_eq, not_true_eq_false, if_false] at h
              have := ih _ _ _ _ _ h
              simpa [World.send] using this
      · simp only [hc, hs, ne_eq, not_false_eq_true, if_true, Option.some.injEq,
          Prod.mk.injEq] at h
        rw [← h.2]; exact ⟨rfl, rfl⟩

theorem getOrgRepos_returned (c : GitHubClient) (token org : GoString) (fuel : Nat)
    (w w' : World) :
    returned (getOrgRepos c token org fuel w) = returned (getOrgRepos c token org fuel w') :=
  getReposFromURLLoop_returned c token _ fuel 1 [] w w'

theorem getUserRepos_returned (c : GitHubClient) (token user : GoString) (fuel : Nat)
    (w w' : World) :
    returned (getUserRepos c token user fuel w) = returned (getUserRepos c token user fuel w') :=
  getReposFromURLLoop_returned c token _ fuel 1 [] w w'

theorem getCurrentUser_fst (c : GitHubClient) (token : GoString) (w w' : World) :
    (getCurrentUser c token w).1 = (getCurrentUser c token w').1 := by
  unfold getCurrentUser
  simp only
  cases c.user (githubRequest token "https://api.github.com/user".toList) with
  | failed err => rfl
  | response status decoded =>
    by_cases hs : status = 200
    · cases decoded <;> simp [hs]
    · simp [hs]

theorem getCurrentUser_frame (c : GitHubClient) (token : GoString) (w : World) :
    (getCurrentUser c token w).2.ran = w.ran ∧ (getCurrentUser c token w).2.paths = w.paths := by
  unfold getCurrentUser
  simp only
  cases c.user (githubRequest token "https://api.github.com/user".toList) with
  | failed err => exact ⟨rfl, rfl⟩
  | response status decoded =>
    by_cases hs : status = 200
    · cases decoded <;> simp [hs, World.send]
    · simp [hs, World.send]

theorem getUserOrgs_fst (c : GitHubClient) (token : GoString) (w w' : World) :
    (getUserOrgs c token w).1 = (getUserOrgs c token w').1 := by
  unfold getUserOrgs
  simp only
  cases c.orgs (githubRequest token "https://api.github.com/user/orgs?per_page=100".toList) with
  | failed err => rfl
  | response status decoded =>
    by_cases hs : status = 200
    · cases decoded <;> simp [hs]
    · simp [hs]

theorem getUserOrgs_frame (c : GitHubClient) (token : GoString) (w : World) :
    (getUserOrgs c token w).2.ran = w.ran ∧ (getUserOrgs c token w).2.paths = w.paths := by
  unfold getUserOrgs
  simp only
  cases c.orgs (githubRequest token "https://api.github.com/user/orgs?per_page=100".toList) with
  | failed err => exact ⟨rfl, rfl⟩
  | response status decoded =>
    by_cases hs : status = 200
    · cases decoded <;> simp [hs, World.send]
    · simp [hs, World.send]

theorem githubOrgLoop_returned (c : GitHubClient) (token : GoString) (fuel : Nat) (w0 : World) :
    ∀ orgs repos w, (∀ o ∈ orgs, returned (getOrgRepos c token o fuel w0) ≠ none) →
      returned (githubOrgLoop c token fuel orgs repos w)
        = some (repos ++ orgs.flatMap fun o =>
            contribution (returned (getOrgRepos c token o fuel w0))) := by
  intro orgs
  induction orgs with
  | nil => intro repos w _; simp [githubOrgLoop, returned]
  | cons org orgs ih =>
    intro repos w hall
    have hrest : ∀ o ∈ orgs, returned (getOrgRepos c token o fuel w0) ≠ none :=
      fun o ho => hall o (List.mem_cons_of_mem _ ho)
    have hne := hall org (List.mem_cons_self _ _)
    have hw := getOrgRepos_returned c token org fuel w w0
    unfold githubOrgLoop
    cases hr : getOrgRepos c token org fuel w with
    | none =>
      rw [hr] at hw
      exact absurd hw.symm hne
    | some r =>
      obtain ⟨res, w1⟩ := r
      rw [hr] at hw
      cases res with
      | error e =>
        simp only
        have hw' : returned (getOrgRepos c token org fuel w0) = some (Except.error e) := hw.symm
        rw [ih repos _ hrest, List.flatMap_cons, hw']
        rfl
      | ok orgRepos =>
        simp only
        have hw' : returned (getOrgRepos c token org fuel w0) = some (Except.ok orgRepos) :=
          hw.symm
        rw [ih _ _ hrest, List.flatMap_cons, hw']
        simp only [contribution, List.append_assoc]

theorem githubOrgLoop_frame (c : GitHubClient) (token : GoString) (fuel : Nat) :
    ∀ orgs repos w r w', githubOrgLoop c token fuel orgs repos w = some (r, w') →
      w'.ran = w.ran ∧ w'.paths = w.paths := by
  intro orgs
  induction orgs with
  | nil =>
    intro repos w r w' h
    simp only [githubOrgLoop, Option.some.injEq, Prod.mk.injEq] at h
    rw [← h.2]; exact ⟨rfl, rfl⟩
  | cons org orgs ih =>
    intro repos w r w' h
    unfold githubOrgLoop at h
    cases hr : getOrgRepos c token org fuel w with
    | none => simp [hr] at h
    | some x =>
      obtain ⟨res, w1⟩ := x
      have hf := getReposFromURLLoop_frame c token _ fuel 1 [] w res w1 hr
      cases res with
      | error e =>
        simp only [hr] at h
        have := ih _ _ _ _ h
        simpa [World.print, hf.1, hf.2] using this
      | ok orgRepos =>
        simp only [hr] at h
        have := ih _ _ _ _ h
        simpa [hf.1, hf.2] using this

theorem getReposFromURLLoop_succ (c : GitHubClient) (token url : GoString) :
    ∀ fuel p acc w r, getReposFromURLLoop c token url fuel p acc w = some r →
      getReposFromURLLoop c token url (fuel + 1) p acc w = some r := by
  intro fuel
  induction fuel with
  | zero => intro p acc w r h; simp [getReposFromURLLoop] at h
  | succ f ih =>
    intro p acc w r h
    unfold getReposFromURLLoop at h ⊢
    simp only at h ⊢
    cases hc : c.repos (githubRequest token (pageURL url p)) with
    | failed err => simpa [hc] using h
    | response status decoded =>
      by_cases hs : status = 200
      · cases decoded with
        | error e => simpa [hc, hs] using h
        | ok repos =>
          by_cases h0 : repos.length = 0
          · simpa [hc, hs, h0] using h
          · by_cases h1 : repos.length < 100
            · simpa [hc, hs, h0, h1] using h
            · simp only [hc, hs, h0, h1, ne_eq, not_true_eq_false, if_false] at h ⊢
              exact ih _ _ _ _ h
      · simpa [hc, hs] using h

theorem getReposFromURL_mono (c : GitHubClient) (token url : GoString) (fuel fuel' : Nat)
    (w : World) (a : Except GoString (List GoString)) (hle : fuel ≤ fuel')
    (h : returned (getReposFromURL c token url fuel w) = some a) :
    returned (getReposFromURL c token url fuel' w) = some a := by
  obtain ⟨w1, h1⟩ := returned_eq_some h
  have key : ∀ d, getReposFromURLLoop c token url (fuel + d) 1 [] w = some (a, w1) := by
    intro d
    induction d with
    | zero => exact h1
    | succ d ihd => exact getReposFromURLLoop_succ c token url _ _ _ _ _ ihd
  have := key (fuel' - fuel)
  rw [show fuel + (fuel' - fuel) = fuel' by omega] at this
  unfold getReposFromURL
  rw [this]
  rfl

theorem GetAllGithubRepos_returned (c : GitHubClient) (token : GoString) (fuel : Nat) (w : World)
    (user : GitHubUser) (personal : List GoString) (orgs : List GoString)
    (hu : (getCurrentUser c token w).1 = .ok user)
    (hp : returned (getUserRepos c token user.Login fuel w) = some (.ok personal))
    (ho : (getUserOrgs c token w).1 = .ok orgs)
    (ht : ∀ o ∈ orgs, returned (getOrgRepos c token o fuel w) ≠ none) :
    returned (GetAllGithubRepos c token fuel w)
      = some (.ok (personal ++ orgs.flatMap fun o =>
          contribution (returned (getOrgRepos c token o fuel w)))) := by
  unfold GetAllGithubRepos
  rcases h1 : getCurrentUser c token w with ⟨r1, w1⟩
  have hr1 : r1 = .ok user := by rw [← hu, h1]
  subst hr1
  simp only
  obtain ⟨w2, h2⟩ := returned_eq_some
    ((getUserRepos_returned c token user.Login fuel w1 w).trans hp)
  rw [h2]
  simp only
  rcases h3 : getUserOrgs c token w2 with ⟨r3, w3⟩
  have hr3 : r3 = .ok orgs := by
    rw [← ho, getUserOrgs_fst c token w w2, h3]
  subst hr3
  simp only
  have h4 := githubOrgLoop_returned c token fuel w orgs ([] ++ personal) w3 ht
  obtain ⟨w4, h4'⟩ := returned_eq_some h4
  rw [h4']
  rfl

theorem GetAllGithubRepos_frame (c : GitHubClient) (token : GoString) (fuel : Nat)
    (w : World) (r : Except GoString (List GoString)) (w' : World)
    (h : GetAllGithubRepos c token fuel w = some (r, w')) :
    w'.ran = w.ran ∧ w'.paths = w.paths := by
  unfold GetAllGithubRepos at h
  have f1 := getCurrentUser_frame c token w
  rcases h1 : getCurrentUser c token w with ⟨r1, w1⟩
  rw [h1] at f1 h
  simp only at f1
  cases r1 with
  | error e =>
    simp only [Option.some.injEq, Prod.mk.injEq] at h
    rw [← h.2]; exact f1
  | ok user =>
    simp only at h
    cases h2 : getUserRepos c token user.Login fuel w1 with
    | none => simp [h2] at h
    | some x =>
      obtain ⟨r2, w2⟩ := x
      have f2 := getReposFromURLLoop_frame c token _ fuel 1 [] w1 r2 w2 h2
      rw [h2] at h
      cases r2 with
      | error e =>
        simp only [Option.some.injEq, Prod.mk.injEq] at h
        rw [← h.2, f2.1, f2.2]; exact f1
      | ok userRepos =>
        simp only at h
        have f3 := getUserOrgs_frame c token w2
        rcases h3 : getUserOrgs c token w2 with ⟨r3, w3⟩
        rw [h3] at f3 h
        simp only at f3
        cases r3 with
        | error e =>
          simp only [Option.some.injEq, Prod.mk.injEq] at h
          rw [← h.2, f3.1, f3.2, f2.1, f2.2]; exact f1
        | ok orgs =>
          simp only [List.nil_append] at h
          cases h4 : githubOrgLoop c token fuel orgs userRepos w3 with
          | none => simp [h4] at h
          | some y =>
            obtain ⟨repos, w4⟩ := y
            have f4 := githubOrgLoop_frame c token fuel orgs _ w3 repos w4 h4
            rw [h4] at h
            simp only [Option.some.injEq, Prod.mk.injEq] at h
            rw [← h.2, f4.1, f4.2, f3.1, f3.2, f2.1, f2.2]; exact f1

/-! ## The same for `gitlab.go` -/

theorem getGitLabReposFromURLLoop_returned (c : GitLabClient) (token url : GoString) :
    ∀ fuel p acc w w',
      returned (getGitLabReposFromURLLoop c token url fuel p acc w)
        = returned (getGitLabReposFromURLLoop c token url fuel p acc w') := by
  intro fuel
  induction fuel with
  | zero => intros; rfl
  | succ f ih =>
    intro p acc w w'
    unfold getGitLabReposFromURLLoop
    simp only
    cases c.repos (gitlabRequest token (pageURL url p)) with
    | failed err => rfl
    | response status decoded =>
      by_cases hs : status = 200
      · cases decoded with
        | error e => simp [hs, returned]
        | ok repos =>
          by_cases h0 : repos.length = 0
          · simp [hs, h0, returned]
          · by_cases h1 : repos.length < 100
            · simp [hs, h0, h1, returned]
            · simp only [hs, h0, h1, ne_eq, not_true_eq_false, if_false]
              exact ih _ _ _ _
      · simp [hs, returned]

theorem getGitLabReposFromURLLoop_frame (c : GitLabClient) (token url : GoString) :
    ∀ fuel p acc w r w', getGitLabReposFromURLLoop c token url fuel p acc w = some (r, w') →
      w'.ran = w.ran ∧ w'.paths = w.paths := by
  intro fuel
  induction fuel with
  | zero => intro p acc w r w' h; simp [getGitLabReposFromURLLoop] at h
  | succ f ih =>
    intro p acc w r w' h
    unfold getGitLabReposFromURLLoop at h
    simp only at h
    cases hc : c.repos (gitlabRequest token (pageURL url p)) with
    | failed err =>
      simp only [hc, Option.some.injEq, Prod.mk.injEq] at h
      rw [← h.2]; exact ⟨rfl, rfl⟩
    | response status decoded =>
      by_cases hs : status = 200
      · cases decoded with
        | error e =>
          simp only [hc, hs, ne_eq, not_true_eq_false, if_false, Option.some.injEq,
            Prod.mk.injEq] at h
          rw [← h.2]; exact ⟨rfl, rfl⟩
        | ok repos =>
          by_cases h0 : repos.length = 0
          · simp only [hc, hs, h0, ne_eq, not_true_eq_false, if_false, if_true,
              Option.some.injEq, Prod.mk.injEq] at h
            rw [← h.2]; exact ⟨rfl, rfl⟩
          · by_cases h1 : repos.length < 100
            · simp only [hc, hs, h0, h1, ne_eq, not_true_eq_false, if_false, if_true,
                Option.some.injEq, Prod.mk.injEq] at h
              rw [← h.2]; exact ⟨rfl, rfl⟩
            · simp only [hc, hs, h0, h1, ne_eq, not_true_eq_false, if_false] at h
              have := ih _ _ _ _ _ h
              simpa [World.send] using this
      · simp only [hc, hs, ne_eq, not_false_eq_true, if_true, Option.some.injEq,
          Prod.mk.injEq] at h
        rw [← h.2]; exact ⟨rfl, rfl⟩

theorem getGroupGitLabRepos_returned (c : GitLabClient) (token : GoString) (org : Int) (fuel : Nat)
    (w w' : World) :
    returned (getGroupGitLabRepos c token org fuel w)
      = returned (getGroupGitLabRepos c token org fuel w') :=
  getGitLabReposFromURLLoop_returned c token _ fuel 1 [] w w'

theorem getUserGitLabRepos_returned (c : GitLabClient) (token : GoString) (user : Int) (fuel : Nat)
    (w w' : World) :
    returned (getUserGitLabRepos c token user fuel w) = returned (getUserGitLabRepos c token user fuel w') :=
  getGitLabReposFromURLLoop_returned c token _ fuel 1 [] w w'

theorem getCurrentGitLabUser_fst (c : GitLabClient) (token : GoString) (w w' : World) :
    (getCurrentGitLabUser c token w).1 = (getCurrentGitLabUser c token w').1 := by
  unfold getCurrentGitLabUser
  simp only
  cases c.user (gitlabRequest token "https://gitlab.com/api/v4/user".toList) with
  | failed err => rfl
  | response status decoded =>
    by_cases hs : status = 200
    · cases decoded <;> simp [hs]
    · simp [hs]

theorem getCurrentGitLabUser_frame (c : GitLabClient) (token : GoString) (w : World) :
    (getCurrentGitLabUser c token w).2.ran = w.ran ∧ (getCurrentGitLabUser c token w).2.paths = w.paths := by
  unfold getCurrentGitLabUser
  simp only
  cases c.user (gitlabRequest token "https://gitlab.com/api/v4/user".toList) with
  | failed err => exact ⟨rfl, rfl⟩
  | response status decoded =>
    by_cases hs : status = 200
    · cases decoded <;> simp [hs, World.send]
    · simp [hs, World.send]

theorem getUserGitLabGroups_fst (c : GitLabClient) (token : GoString) (w w' : World) :
    (getUserGitLabGroups c token w).1 = (getUserGitLabGroups c token w').1 := by
  unfold getUserGitLabGroups
  simp only
  cases c.groups (gitlabRequest token "https://gitlab.com/api/v4/groups?membership=true&per_page=100".toList) with
  | failed err => rfl
  | response status decoded =>
    by_cases hs : status = 200
    · cases decoded <;> simp [hs]
    · simp [hs]

theorem getUserGitLabGroups_frame (c : GitLabClient) (token : GoString) (w : World) :
    (getUserGitLabGroups c token w).2.ran = w.ran ∧ (getUserGitLabGroups c token w).2.paths = w.paths := by
  unfold getUserGitLabGroups
  simp only
  cases c.groups (gitlabRequest token "https://gitlab.com/api/v4/groups?membership=true&per_page=100".toList) with
  | failed err => exact ⟨rfl, rfl⟩
  | response status decoded =>
    by_cases hs : status = 200
    · cases decoded <;> simp [hs, World.send]
    · simp [hs, World.send]

theorem gitlabGroupLoop_returned (c : GitLabClient) (token : GoString) (fuel : Nat) (w0 : World) :
    ∀ orgs repos w, (∀ o ∈ orgs, returned (getGroupGitLabRepos c token o.ID fuel w0) ≠ none) →
      returned (gitlabGroupLoop c token fuel orgs repos w)
        = some (repos ++ orgs.flatMap fun o =>
            contribution (returned (getGroupGitLabRepos c token o.ID fuel w0))) := by
  intro orgs
  induction orgs with
  | nil => intro repos w _; simp [gitlabGroupLoop, returned]
  | cons org orgs ih =>
    intro repos w hall
    have hrest : ∀ o ∈ orgs, returned (getGroupGitLabRepos c token o.ID fuel w0) ≠ none :=
      fun o ho => hall o (List.mem_cons_of_mem _ ho)
    have hne := hall org (List.mem_cons_self _ _)
    have hw := getGroupGitLabRepos_returned c token org.ID fuel w w0
    unfold gitlabGroupLoop
    cases hr : getGroupGitLabRepos c token org.ID fuel w with
    | none =>
      rw [hr] at hw
      exact absurd hw.symm hne
    | some r =>
      obtain ⟨res, w1⟩ := r
      rw [hr] at hw
      cases res with
      | error e =>
        simp only
        have hw' : returned (getGroupGitLabRepos c token org.ID fuel w0) = some (Except.error e) :=
          hw.symm
        rw [ih repos _ hrest, List.flatMap_cons, hw']
        rfl
      | ok orgRepos =>
        simp only
        have hw' : returned (getGroupGitLabRepos c token org.ID fuel w0) = some (Except.ok orgRepos) :=
          hw.symm
        rw [ih _ _ hrest, List.flatMap_cons, hw']
        simp only [contribution, List.append_assoc]

theorem gitlabGroupLoop_frame (c : GitLabClient) (token : GoString) (fuel : Nat) :
    ∀ orgs repos w r w', gitlabGroupLoop c token fuel orgs repos w = some (r, w') →
      w'.ran = w.ran ∧ w'.paths = w.paths := by
  intro orgs
  induction orgs with
  | nil =>
    intro repos w r w' h
    simp only [gitlabGroupLoop, Option.some.injEq, Prod.mk.injEq] at h
    rw [← h.2]; exact ⟨rfl, rfl⟩
  | cons org orgs ih =>
    intro repos w r w' h
    unfold gitlabGroupLoop at h
    cases hr : getGroupGitLabRepos c token org.ID fuel w with
    | none => simp [hr] at h
    | some x =>
      obtain ⟨res, w1⟩ := x
      have hf := getGitLabReposFromURLLoop_frame c token _ fuel 1 [] w res w1 hr
      cases res with
      | error e =>
        simp only [hr] at h
        have := ih _ _ _ _ h
        simpa [World.print, hf.1, hf.2] using this
      | ok orgRepos =>
        simp only [hr] at h
        have := ih _ _ _ _ h
        simpa [hf.1, hf.2] using this

theorem GetAllGitLabRepos_returned (c : GitLabClient) (token : GoString) (fuel : Nat) (w : World)
    (user : GitLabUser) (personal : List GoString) (orgs : List GitLabGroup)
    (hu : (getCurrentGitLabUser c token w).1 = .ok user)
    (hp : returned (getUserGitLabRepos c token user.ID fuel w) = some (.ok personal))
    (ho : (getUserGitLabGroups c token w).1 = .ok orgs)
    (ht : ∀ o ∈ orgs, returned (getGroupGitLabRepos c token o.ID fuel w) ≠ none) :
    returned (GetAllGitLabRepos c token fuel w)
      = some (.ok (personal ++ orgs.flatMap fun o =>
          contribution (returned (getGroupGitLabRepos c token o.ID fuel w)))) := by
  unfold GetAllGitLabRepos
  rcases h1 : getCurrentGitLabUser c token w with ⟨r1, w1⟩
  have hr1 : r1 = .ok user := by rw [← hu, h1]
  subst hr1
  simp only
  obtain ⟨w2, h2⟩ := returned_eq_some
    ((getUserGitLabRepos_returned c token user.ID fuel w1 w).trans hp)
  rw [h2]
  simp only
  rcases h3 : getUserGitLabGroups c token w2 with ⟨r3, w3⟩
  have hr3 : r3 = .ok orgs := by
    rw [← ho, getUserGitLabGroups_fst c token w w2, h3]
  subst hr3
  simp only
  have h4 := gitlabGroupLoop_returned c token fuel w orgs ([] ++ personal) w3 ht
  obtain ⟨w4, h4'⟩ := returned_eq_some h4
  rw [h4']
  rfl

theorem GetAllGitLabRepos_frame (c : GitLabClient) (token : GoString) (fuel : Nat)
    (w : World) (r : Except GoString (List GoString)) (w' : World)
    (h : GetAllGitLabRepos c token fuel w = some (r, w')) :
    w'.ran = w.ran ∧ w'.paths = w.paths := by
  unfold GetAllGitLabRepos at h
  have f1 := getCurrentGitLabUser_frame c token w
  rcases h1 : getCurrentGitLabUser c token w with ⟨r1, w1⟩
  rw [h1] at f1 h
  simp only at f1
  cases r1 with
  | error e =>
    simp only [Option.some.injEq, Prod.mk.injEq] at h
    rw [← h.2]; exact f1
  | ok user =>
    simp only at h
    cases h2 : getUserGitLabRepos c token user.ID fuel w1 with
    | none => simp [h2] at h
    | some x =>
      obtain ⟨r2, w2⟩ := x
      have f2 := getGitLabReposFromURLLoop_frame c token _ fuel 1 [] w1 r2 w2 h2
      rw [h2] at h
      cases r2 with
      | error e =>
        simp only [Option.some.injEq, Prod.mk.injEq] at h
        rw [← h.2, f2.1, f2.2]; exact f1
      | ok userRepos =>
        simp only at h
        have f3 := getUserGitLabGroups_frame c token w2
        rcases h3 : getUserGitLabGroups c token w2 with ⟨r3, w3⟩
        rw [h3] at f3 h
        simp only at f3
        cases r3 with
        | error e =>
          simp only [Option.some.injEq, Prod.mk.injEq] at h
          rw [← h.2, f3.1, f3.2, f2.1, f2.2]; exact f1
        | ok orgs =>
          simp only [List.nil_append] at h
          cases h4 : gitlabGroupLoop c token fuel orgs userRepos w3 with
          | none => simp [h4] at h
          | some y =>
            obtain ⟨repos, w4⟩ := y
            have f4 := gitlabGroupLoop_frame c token fuel orgs _ w3 repos w4 h4
            rw [h4] at h
            simp only [Option.some.injEq, Prod.mk.injEq] at h
            rw [← h.2, f4.1, f4.2, f3.1, f3.2, f2.1, f2.2]; exact f1

theorem getGitLabReposFromURLLoop_succ (c : GitLabClient) (token url : GoString) :
    ∀ fuel p acc w r, getGitLabReposFromURLLoop c token url fuel p acc w = some r →
      getGitLabReposFromURLLoop c token url (fuel + 1) p acc w = some r := by
  intro fuel
  induction fuel with
  | zero => intro p acc w r h; simp [getGitLabReposFromURLLoop] at h
  | succ f ih =>
    intro p acc w r h
    unfold getGitLabReposFromURLLoop at h ⊢
    simp only at h ⊢
    cases hc : c.repos (gitlabRequest token (pageURL url p)) with
    | failed err => simpa [hc] using h
    | response status decoded =>
      by_cases hs : status = 200
      · cases decoded with
        | error e => simpa [hc, hs] using h
        | ok repos =>
          by_cases h0 : repos.length = 0
          · simpa [hc, hs, h0] using h
          · by_cases h1 : repos.length < 100
            · simpa [hc, hs, h0, h1] using h
            · simp only [hc, hs, h0, h1, ne_eq, not_true_eq_false, if_false] at h ⊢
              exact ih _ _ _ _ h
      · simpa [hc, hs] using h

theorem getGitLabReposFromURL_mono (c : GitLabClient) (token url : GoString) (fuel fuel' : Nat)
    (w : World) (a : Except GoString (List GoString)) (hle : fuel ≤ fuel')
    (h : returned (getGitLabReposFromURL c token url fuel w) = some a) :
    returned (getGitLabReposFromURL c token url fuel' w) = some a := by
  obtain ⟨w1, h1⟩ := returned_eq_some h
  have key : ∀ d, getGitLabReposFromURLLoop c token url (fuel + d) 1 [] w = some (a, w1) := by
    intro d
    induction d with
    | zero => exact h1
    | succ d ihd => exact getGitLabReposFromURLLoop_succ c token url _ _ _ _ _ ihd
  have := key (fuel' - fuel)
  rw [show fuel + (fuel' - fuel) = fuel' by omega] at this
  unfold getGitLabReposFromURL
  rw [this]
  rfl

/-! ## A listing described page by page -/

theorem getReposFromURL_succeeds (c : GitHubClient) (token url : GoString)
    (src : Nat → List GitHubRepo) (k fuel : Nat) (w : World)
    (h : GitHubListingSucceeds c token url src k) (hfuel : k ≤ fuel) :
    returned (getReposFromURL c token url fuel w) = some (.ok (cloneURLs src k)) := by
  obtain ⟨hk, hsrc, hfull, hshort⟩ := h
  have := getReposFromURLLoop_pages c token url src k hsrc hfull hshort (k - 1) 1 fuel [] w
    (by omega) (le_refl _) (by omega)
  rw [show k - 1 + 1 = k by omega] at this
  unfold getReposFromURL
  rw [this]
  simp [returned, cloneURLs]

theorem getReposFromURLLoop_fails (c : GitHubClient) (token url : GoString)
    (src : Nat → List GitHubRepo) (j : Nat) (h : GitHubListingFails c token url src j) :
    ∀ n p fuel acc w, p + n = j → 1 ≤ p → n < fuel →
      ∃ e w', getReposFromURLLoop c token url fuel p acc w = some (.error e, w') := by
  obtain ⟨_, hfull, hfail⟩ := h
  intro n
  induction n with
  | zero =>
    intro p fuel acc w hp h1 hf
    obtain ⟨f, rfl⟩ : ∃ f, fuel = f + 1 := ⟨fuel - 1, by omega⟩
    have hpj : p = j := by omega
    subst hpj
    unfold getReposFromURLLoop
    simp only
    cases hc : c.repos (githubRequest token (pageURL url p)) with
    | failed err => exact ⟨err, _, rfl⟩
    | response status decoded =>
      rw [hc] at hfail
      by_cases hs : status = 200
      · cases decoded with
        | error e => exact ⟨e, _, by simp only; rw [hs]; rfl⟩
        | ok repos => simp [Reply.fails, hs] at hfail
      · exact ⟨githubStatusError status, _, by simp only; rw [if_pos hs]⟩
  | succ n ih =>
    intro p fuel acc w hp h1 hf
    obtain ⟨f, rfl⟩ : ∃ f, fuel = f + 1 := ⟨fuel - 1, by omega⟩
    obtain ⟨hreply, hlen⟩ := hfull p h1 (by omega)
    have h0 : ¬ (src p).length = 0 := by omega
    have h100 : ¬ (src p).length < 100 := by omega
    unfold getReposFromURLLoop
    simp only [hreply]
    simp only [h0, h100, ne_eq, not_true_eq_false, if_false]
    exact ih (p + 1) f _ _ (by omega) (by omega) (by omega)

theorem getReposFromURL_fails (c : GitHubClient) (token url : GoString)
    (src : Nat → List GitHubRepo) (j fuel : Nat) (w : World)
    (h : GitHubListingFails c token url src j) (hfuel : j ≤ fuel) :
    ∃ e, returned (getReposFromURL c token url fuel w) = some (.error e) := by
  obtain ⟨e, w', he⟩ := getReposFromURLLoop_fails c token url src j h (j - 1) 1 fuel [] w
    (by have := h.1; omega) (le_refl _) (by have := h.1; omega)
  refine ⟨e, ?_⟩
  unfold getReposFromURL
  rw [he]
  rfl

theorem getCurrentUser_ok (c : GitHubClient) (token : GoString) (w : World) (user : GitHubUser)
    (h : c.user (githubRequest token "https://api.github.com/user".toList)
      = .response 200 (.ok user)) :
    (getCurrentUser c token w).1 = .ok user := by
  unfold getCurrentUser
  simp only
  rw [h]
  rfl

theorem getUserOrgs_ok (c : GitHubClient) (token : GoString) (w : World)
    (orgs : List GitHubUser)
    (h : c.orgs (githubRequest token "https://api.github.com/user/orgs?per_page=100".toList)
      = .response 200 (.ok orgs)) :
    (getUserOrgs c token w).1 = .ok (orgs.map fun org => org.Login) := by
  unfold getUserOrgs
  simp only
  rw [h]
  rfl

theorem flatMap_congr_mem {α β : Type} (l : List α) (f g : α → List β)
    (h : ∀ a ∈ l, f a = g a) : l.flatMap f = l.flatMap g := by
  induction l with
  | nil => rfl
  | cons a l ih =>
    rw [List.flatMap_cons, List.flatMap_cons, h a (List.mem_cons_self _ _),
      ih fun b hb => h b (List.mem_cons_of_mem _ hb)]

theorem flatMap_filter {α β : Type} (l : List α) (keep : α → Bool) (f : α → List β) :
    (l.flatMap fun a => if keep a = true then f a else []) = (l.filter keep).flatMap f := by
  induction l with
  | nil => rfl
  | cons a l ih =>
    rw [List.flatMap_cons, ih]
    cases hk : keep a <;> simp [List.filter, hk]

theorem getGitLabReposFromURL_succeeds (c : GitLabClient) (token url : GoString)
    (src : Nat → List GitLabRepo) (k fuel : Nat) (w : World)
    (h : GitLabListingSucceeds c token url src k) (hfuel : k ≤ fuel) :
    returned (getGitLabReposFromURL c token url fuel w) = some (.ok (projectURLs src k)) := by
  obtain ⟨hk, hsrc, hfull, hshort⟩ := h
  have := getGitLabReposFromURLLoop_pages c token url src k hsrc hfull hshort (k - 1) 1 fuel [] w
    (by omega) (le_refl _) (by omega)
  rw [show k - 1 + 1 = k by omega] at this
  unfold getGitLabReposFromURL
  rw [this]
  simp [returned, projectURLs]

theorem getGitLabReposFromURLLoop_fails (c : GitLabClient) (token url : GoString)
    (src : Nat → List GitLabRepo) (j : Nat) (h : GitLabListingFails c token url src j) :
    ∀ n p fuel acc w, p + n = j → 1 ≤ p → n < fuel →
      ∃ e w', getGitLabReposFromURLLoop c token url fuel p acc w = some (.error e, w') := by
  obtain ⟨_, hfull, hfail⟩ := h
  intro n
  induction n with
  | zero =>
    intro p fuel acc w hp h1 hf
    obtain ⟨f, rfl⟩ : ∃ f, fuel = f + 1 := ⟨fuel - 1, by omega⟩
    have hpj : p = j := by omega
    subst hpj
    unfold getGitLabReposFromURLLoop
    simp only
    cases hc : c.repos (gitlabRequest token (pageURL url p)) with
    | failed err => exact ⟨err, _, rfl⟩
    | response status decoded =>
      rw [hc] at hfail
      by_cases hs : status = 200
      · cases decoded with
        | error e => exact ⟨e, _, by simp only; rw [hs]; rfl⟩
        | ok repos => simp [Reply.fails, hs] at hfail
      · exact ⟨gitlabStatusError status, _, by simp only; rw [if_pos hs]⟩
  | succ n ih =>
    intro p fuel acc w hp h1 hf
    obtain ⟨f, rfl⟩ : ∃ f, fuel = f + 1 := ⟨fuel - 1, by omega⟩
    obtain ⟨hreply, hlen⟩ := hfull p h1 (by omega)
    have h0 : ¬ (src p).length = 0 := by omega
    have h100 : ¬ (src p).length < 100 := by omega
    unfold getGitLabReposFromURLLoop
    simp only [hreply]
    simp only [h0, h100, ne_eq, not_true_eq_false, if_false]
    exact ih (p + 1) f _ _ (by omega) (by omega) (by omega)

theorem getGitLabReposFromURL_fails (c : GitLabClient) (token url : GoString)
    (src : Nat → List GitLabRepo) (j fuel : Nat) (w : World)
    (h : GitLabListingFails c token url src j) (hfuel : j ≤ fuel) :
    ∃ e, returned (getGitLabReposFromURL c token url fuel w) = some (.error e) := by
  obtain ⟨e, w', he⟩ := getGitLabReposFromURLLoop_fails c token url src j h (j - 1) 1 fuel [] w
    (by have := h.1; omega) (le_refl _) (by have := h.1; omega)
  refine ⟨e, ?_⟩
  unfold getGitLabReposFromURL
  rw [he]
  rfl

theorem getCurrentGitLabUser_ok (c : GitLabClient) (token : GoString) (w : World) (user : GitLabUser)
    (h : c.user (gitlabRequest token "https://gitlab.com/api/v4/user".toList)
      = .response 200 (.ok user)) :
    (getCurrentGitLabUser c token w).1 = .ok user := by
  unfold getCurrentGitLabUser
  simp only
  rw [h]
  rfl

theorem getUserGitLabGroups_ok (c : GitLabClient) (token : GoString) (w : World)
    (orgs : List GitLabGroup)
    (h : c.groups (gitlabRequest token "https://gitlab.com/api/v4/groups?membership=true&per_page=100".toList)
      = .response 200 (.ok orgs)) :
    (getUserGitLabGroups c token w).1 = .ok orgs := by
  unfold getUserGitLabGroups
  simp only
  rw [h]
  rfl


/-! ## Enumeration and orchestration -/

theorem contribution_of_listing (c : GitHubClient) (token : GoString) (fuel : Nat) (w : World)
    (o : GoString) (succeeds : Bool) (src : Nat → List GitHubRepo) (k : Nat)
    (hs : succeeds = true → GitHubListingSucceeds c token (orgReposURL o) src k)
    (hf : succeeds = false → GitHubListingFails c token (orgReposURL o) src k)
    (hfuel : k ≤ fuel) :
    returned (getOrgRepos c token o fuel w) ≠ none
      ∧ contribution (returned (getOrgRepos c token o fuel w))
        = if succeeds = true then cloneURLs src k else [] := by
  cases succeeds with
  | false =>
    obtain ⟨e, he⟩ := getReposFromURL_fails c token _ src k fuel w (hf rfl) hfuel
    have he' : returned (getOrgRepos c token o fuel w) = some (.error e) := he
    rw [he']
    exact ⟨nofun, rfl⟩
  | true =>
    have he := getReposFromURL_succeeds c token _ src k fuel w (hs rfl) hfuel
    have he' : returned (getOrgRepos c token o fuel w) = some (.ok (cloneURLs src k)) := he
    rw [he']
    exact ⟨nofun, rfl⟩

theorem contribution_of_group_listing (c : GitLabClient) (token : GoString) (fuel : Nat)
    (w : World) (g : Int) (succeeds : Bool) (src : Nat → List GitLabRepo) (k : Nat)
    (hs : succeeds = true → GitLabListingSucceeds c token (groupProjectsURL g) src k)
    (hf : succeeds = false → GitLabListingFails c token (groupProjectsURL g) src k)
    (hfuel : k ≤ fuel) :
    returned (getGroupGitLabRepos c token g fuel w) ≠ none
      ∧ contribution (returned (getGroupGitLabRepos c token g fuel w))
        = if succeeds = true then projectURLs src k else [] := by
  cases succeeds with
  | false =>
    obtain ⟨e, he⟩ := getGitLabReposFromURL_fails c token _ src k fuel w (hf rfl) hfuel
    have he' : returned (getGroupGitLabRepos c token g fuel w) = some (.error e) := he
    rw [he']
    exact ⟨nofun, rfl⟩
  | true =>
    have he := getGitLabReposFromURL_succeeds c token _ src k fuel w (hs rfl) hfuel
    have he' : returned (getGroupGitLabRepos c token g fuel w)
        = some (.ok (projectURLs src k)) := he
    rw [he']
    exact ⟨nofun, rfl⟩

/-- C3: whenever the identity request, the personal listing and the request
for the organizations (groups) succeed, and the listing of every organization
either succeeds on every page up to its first short page or fails on some page
after full pages, `GetAllGithubRepos` (and in the same way
`GetAllGitLabRepos`) returns, for every bound that covers those pages, no
error and the personal clone URLs followed, in the order the organizations
were listed, by the clone URLs of exactly those organizations whose listing
succeeded on every page; an organization whose listing fails on a page,
the first or a later one, contributes no URL at all, not even those of the
full pages answered before the failure. -/
theorem enumeration_skips_failed_namespaces
    (gh : GitHubClient) (gl : GitLabClient) (token : GoString) (fuel : Nat) (w : World)
    (user : GitHubUser) (orgs : List GitHubUser) (src0 : Nat → List GitHubRepo) (k0 : Nat)
    (succeeds : GoString → Bool) (k : GoString → Nat) (src : GoString → Nat → List GitHubRepo)
    (user' : GitLabUser) (groups : List GitLabGroup) (src0' : Nat → List GitLabRepo) (k0' : Nat)
    (succeeds' : Int → Bool) (k' : Int → Nat) (src' : Int → Nat → List GitLabRepo)
    (hu : gh.user (githubRequest token "https://api.github.com/user".toList)
      = .response 200 (.ok user))
    (hp : GitHubListingSucceeds gh token (userReposURL user.Login) src0 k0)
    (ho : gh.orgs (githubRequest token "https://api.github.com/user/orgs?per_page=100".toList)
      = .response 200 (.ok orgs))
    (hs : ∀ o ∈ orgs, succeeds o.Login = true →
      GitHubListingSucceeds gh token (orgReposURL o.Login) (src o.Login) (k o.Login))
    (hf : ∀ o ∈ orgs, succeeds o.Login = false →
      GitHubListingFails gh token (orgReposURL o.Login) (src o.Login) (k o.Login))
    (hfuel0 : k0 ≤ fuel)
    (hfuel : ∀ o ∈ orgs, k o.Login ≤ fuel)
    (hu' : gl.user (gitlabRequest token "https://gitlab.com/api/v4/user".toList)
      = .response 200 (.ok user'))
    (hp' : GitLabListingSucceeds gl token (userProjectsURL user'.ID) src0' k0')
    (ho' : gl.groups (gitlabRequest token
        "https://gitlab.com/api/v4/groups?membership=true&per_page=100".toList)
      = .response 200 (.ok groups))
    (hs' : ∀ g ∈ groups, succeeds' g.ID = true →
      GitLabListingSucceeds gl token (groupProjectsURL g.ID) (src' g.ID) (k' g.ID))
    (hf' : ∀ g ∈ groups, succeeds' g.ID = false →
      GitLabListingFails gl token (groupProjectsURL g.ID) (src' g.ID) (k' g.ID))
    (hfuel0' : k0' ≤ fuel)
    (hfuel' : ∀ g ∈ groups, k' g.ID ≤ fuel) :
    returned (GetAllGithubRepos gh token fuel w)
        = some (.ok (cloneURLs src0 k0 ++
            ((orgs.map fun o => o.Login).filter succeeds).flatMap fun o =>
              cloneURLs (src o) (k o)))
      ∧ returned (GetAllGitLabRepos gl token fuel w)
        = some (.ok (projectURLs src0' k0' ++
            (groups.filter fun g => succeeds' g.ID).flatMap fun g =>
              projectURLs (src' g.ID) (k' g.ID))) := by
  constructor
  · have hc : ∀ o ∈ orgs.map (fun o => o.Login),
        returned (getOrgRepos gh token o fuel w) ≠ none
          ∧ contribution (returned (getOrgRepos gh token o fuel w))
            = if succeeds o = true then cloneURLs (src o) (k o) else [] := by
      intro o hmem
      obtain ⟨e, he, rfl⟩ := List.mem_map.mp hmem
      exact contribution_of_listing gh token fuel w e.Login (succeeds e.Login) (src e.Login)
        (k e.Login) (hs e he) (hf e he) (hfuel e he)
    rw [GetAllGithubRepos_returned gh token fuel w user (cloneURLs src0 k0)
      (orgs.map fun o => o.Login) (getCurrentUser_ok gh token w user hu)
      (getReposFromURL_succeeds gh token _ src0 k0 fuel w hp hfuel0)
      (getUserOrgs_ok gh token w orgs ho) (fun o hmem => (hc o hmem).1)]
    rw [flatMap_congr_mem _ _ _ (fun o hmem => (hc o hmem).2), flatMap_filter]
  · have hc : ∀ g ∈ groups,
        returned (getGroupGitLabRepos gl token g.ID fuel w) ≠ none
          ∧ contribution (returned (getGroupGitLabRepos gl token g.ID fuel w))
            = if succeeds' g.ID = true then projectURLs (src' g.ID) (k' g.ID) else [] := by
      intro g hmem
      exact contribution_of_group_listing gl token fuel w g.ID (succeeds' g.ID) (src' g.ID)
        (k' g.ID) (hs' g hmem) (hf' g hmem) (hfuel' g hmem)
    rw [GetAllGitLabRepos_returned gl token fuel w user' (projectURLs src0' k0') groups
      (getCurrentGitLabUser_ok gl token w user' hu')
      (getGitLabReposFromURL_succeeds gl token _ src0' k0' fuel w hp' hfuel0')
      (getUserGitLabGroups_ok gl token w groups ho') (fun g hmem => (hc g hmem).1)]
    rw [flatMap_congr_mem _ _ _ (fun g hmem => (hc g hmem).2),
      flatMap_filter groups (fun g => succeeds' g.ID)]

/-! ## The example account, page by page -/

theorem exampleGitHub_personal :
    GitHubListingSucceeds exampleGitHub "TOK".toList (userReposURL "u".toList)
      (fun _ => [githubRepoAt "https://github.com/u/p.git".toList]) 1 :=
  ⟨by decide, fun p h1 h2 => by interval_cases p; rfl, fun p h1 h2 => by omega, by decide⟩

theorem exampleGitHub_org_a :
    GitHubListingSucceeds exampleGitHub "TOK".toList (orgReposURL "a".toList)
      (exampleOrgPages "a".toList) 1 :=
  ⟨by decide, fun p h1 h2 => by interval_cases p; rfl, fun p h1 h2 => by omega, by decide⟩

theorem exampleGitHub_org_b :
    GitHubListingFails exampleGitHub "TOK".toList (orgReposURL "b".toList)
      (exampleOrgPages "b".toList) 2 :=
  ⟨by decide, fun p h1 h2 => by interval_cases p; exact ⟨rfl, by decide⟩, rfl⟩

theorem exampleGitHub_org_c :
    GitHubListingSucceeds exampleGitHub "TOK".toList (orgReposURL "c".toList)
      (exampleOrgPages "c".toList) 1 :=
  ⟨by decide, fun p h1 h2 => by interval_cases p; rfl, fun p h1 h2 => by omega, by decide⟩

theorem exampleGitLab_personal :
    GitLabListingSucceeds exampleGitLab "TOK".toList (userProjectsURL 7)
      (fun _ => [gitlabRepoAt "https://gitlab.com/u/p.git".toList]) 1 :=
  ⟨by decide, fun p h1 h2 => by interval_cases p; rfl, fun p h1 h2 => by omega, by decide⟩

theorem exampleGitLab_group_1 :
    GitLabListingSucceeds exampleGitLab "TOK".toList (groupProjectsURL 1)
      (exampleGroupPages 1) 1 :=
  ⟨by decide, fun p h1 h2 => by interval_cases p; rfl, fun p h1 h2 => by omega, by decide⟩

theorem exampleGitLab_group_2 :
    GitLabListingFails exampleGitLab "TOK".toList (groupProjectsURL 2)
      (exampleGroupPages 2) 2 :=
  ⟨by decide, fun p h1 h2 => by interval_cases p; exact ⟨rfl, by decide⟩, rfl⟩

theorem exampleGitLab_group_3 :
    GitLabListingSucceeds exampleGitLab "TOK".toList (groupProjectsURL 3)
      (exampleGroupPages 3) 1 :=
  ⟨by decide, fun p h1 h2 => by interval_cases p; rfl, fun p h1 h2 => by omega, by decide⟩

/-- C3, witness: three organizations (groups) of which the second has a full
first page and a second page answered with status 500; the result is the
personal repository, then the repository of the first, then that of the third,
none of the 100 repositories of the second, and no error. -/
theorem enumeration_skips_failed_namespaces_witness :
    returned (GetAllGithubRepos exampleGitHub "TOK".toList 2 emptyWorld)
        = some (.ok ["https://github.com/u/p.git".toList, "https://github.com/a/x.git".toList,
            "https://github.com/c/y.git".toList])
      ∧ returned (GetAllGitLabRepos exampleGitLab "TOK".toList 2 emptyWorld)
        = some (.ok ["https://gitlab.com/u/p.git".toList, "https://gitlab.com/a/x.git".toList,
            "https://gitlab.com/c/y.git".toList]) := by
  have h := enumeration_skips_failed_namespaces exampleGitHub exampleGitLab "TOK".toList 2
    emptyWorld { Login := "u".toList }
    [{ Login := "a".toList }, { Login := "b".toList }, { Login := "c".toList }]
    (fun _ => [githubRepoAt "https://github.com/u/p.git".toList]) 1
    (fun o => decide (o ≠ "b".toList)) (fun o => if o = "b".toList then 2 else 1)
    exampleOrgPages
    { ID := 7, Username := "u".toList }
    [{ ID := 1, Name := "a".toList, Path := "a".toList },
     { ID := 2, Name := "b".toList, Path := "b".toList },
     { ID := 3, Name := "c".toList, Path := "c".toList }]
    (fun _ => [gitlabRepoAt "https://gitlab.com/u/p.git".toList]) 1
    (fun g => decide (g ≠ 2)) (fun g => if g = 2 then 2 else 1) exampleGroupPages
    rfl
    exampleGitHub_personal
    rfl
    (by
      intro o ho hb
      simp only [List.mem_cons, List.mem_singleton, List.not_mem_nil, or_false] at ho
      rcases ho with rfl | rfl | rfl
      · exact exampleGitHub_org_a
      · exact absurd hb (by decide)
      · exact exampleGitHub_org_c)
    (by
      intro o ho hb
      simp only [List.mem_cons, List.mem_singleton, List.not_mem_nil, or_false] at ho
      rcases ho with rfl | rfl | rfl
      · exact absurd hb (by decide)
      · exact exampleGitHub_org_b
      · exact absurd hb (by decide))
    (by decide)
    (by
      intro o ho
      simp only [List.mem_cons, List.mem_singleton, List.not_mem_nil, or_false] at ho
      rcases ho with rfl | rfl | rfl <;> decide)
    rfl
    exampleGitLab_personal
    rfl
    (by
      intro g hg hb
      simp only [List.mem_cons, List.mem_singleton, List.not_mem_nil, or_false] at hg
      rcases hg with rfl | rfl | rfl
      · exact exampleGitLab_group_1
      · exact absurd hb (by decide)
      · exact exampleGitLab_group_3)
    (by
      intro g hg hb
      simp only [List.mem_cons, List.mem_singleton, List.not_mem_nil, or_false] at hg
      rcases hg with rfl | rfl | rfl
      · exact absurd hb (by decide)
      · exact exampleGitLab_group_2
      · exact absurd hb (by decide))
    (by decide)
    (by
      intro g hg
      simp only [List.mem_cons, List.mem_singleton, List.not_mem_nil, or_false] at hg
      rcases hg with rfl | rfl | rfl <;> decide)
  exact ⟨h.1.trans rfl, h.2.trans rfl⟩

theorem BackupRepo_ran (rt : Runtime) (repo token : GoString) (w : World) :
    ∃ cmd, (BackupRepo rt repo token w).2.ran = w.ran ++ [cmd]
      ∧ (cmd = cloneCmd rt repo token ∨ cmd = fetchCmd rt repo) := by
  by_cases h : rt.Stat (repoPath rt repo) w = .notExist
  · exact ⟨_, (BackupRepo_absent rt repo token w h).1, Or.inl rfl⟩
  · exact ⟨_, (BackupRepo_present rt repo token w h).1, Or.inr rfl⟩

theorem backupLoop_ran (rt : Runtime) (token : GoString) :
    ∀ urls w, ∃ cmds, (backupLoop rt token urls w).ran = w.ran ++ cmds
      ∧ List.Forall₂ (fun url cmd => cmd = cloneCmd rt url token ∨ cmd = fetchCmd rt url)
          urls cmds := by
  intro urls
  induction urls with
  | nil => intro w; exact ⟨[], by simp [backupLoop], List.Forall₂.nil⟩
  | cons url urls ih =>
    intro w
    obtain ⟨cmd, hran, hcmd⟩ := BackupRepo_ran rt url token w
    unfold backupLoop
    rcases hb : BackupRepo rt url token w with ⟨err, w1⟩
    rw [hb] at hran
    simp only at hran
    cases err with
    | some e =>
      obtain ⟨cmds, hc, hf⟩ := ih (w1.print ("Error cloning repository: ".toList ++ e
        ++ "\n".toList))
      refine ⟨cmd :: cmds, ?_, List.Forall₂.cons hcmd hf⟩
      rw [hc]
      simp [World.print, hran]
    | none =>
      obtain ⟨cmds, hc, hf⟩ := ih w1
      refine ⟨cmd :: cmds, ?_, List.Forall₂.cons hcmd hf⟩
      rw [hc]
      simp [hran]

/-- C4: for every credential and every git (whichever of its commands fail),
if enumeration succeeds with the URL list `urls`, `backupGithub` (and in the
same way `backupGitLab`) returns no error and runs exactly one git command per
URL, in discovery order, each the clone or the fetch that `BackupRepo` issues
for that URL with that same credential; if enumeration fails, it returns the
enumeration error and runs no command at all. -/
theorem backup_visits_every_repository
    (gh : GitHubClient) (gl : GitLabClient) (rt : Runtime) (token : GoString) (fuel : Nat)
    (w : World) :
    (∀ urls w1, GetAllGithubRepos gh token fuel w = some (.ok urls, w1) →
        ∃ w2 cmds, backupGithub gh rt token fuel w = some (none, w2)
          ∧ w2.ran = w.ran ++ cmds
          ∧ List.Forall₂ (fun url cmd => cmd = cloneCmd rt url token ∨ cmd = fetchCmd rt url)
              urls cmds)
      ∧ (∀ err w1, GetAllGithubRepos gh token fuel w = some (.error err, w1) →
        ∃ w2, backupGithub gh rt token fuel w = some (some err, w2)
          ∧ w2.ran = w.ran ∧ w2.paths = w.paths)
      ∧ (∀ urls w1, GetAllGitLabRepos gl token fuel w = some (.ok urls, w1) →
        ∃ w2 cmds, backupGitLab gl rt token fuel w = some (none, w2)
          ∧ w2.ran = w.ran ++ cmds
          ∧ List.Forall₂ (fun url cmd => cmd = cloneCmd rt url token ∨ cmd = fetchCmd rt url)
              urls cmds)
      ∧ (∀ err w1, GetAllGitLabRepos gl token fuel w = some (.error err, w1) →
        ∃ w2, backupGitLab gl rt token fuel w = some (some err, w2)
          ∧ w2.ran = w.ran ∧ w2.paths = w.paths) := by
  refine ⟨?_, ?_, ?_, ?_⟩
  · intro urls w1 h
    have hf := GetAllGithubRepos_frame gh token fuel w _ w1 h
    obtain ⟨cmds, hc, hall⟩ := backupLoop_ran rt token urls
      (w1.print ("Github repositories: ".toList ++ formatSlice urls ++ "\n".toList))
    refine ⟨backupLoop rt token urls
      (w1.print ("Github repositories: ".toList ++ formatSlice urls ++ "\n".toList)),
      cmds, ?_, ?_, hall⟩
    · unfold backupGithub
      rw [h]
    · rw [hc]
      simp [World.print, hf.1]
  · intro err w1 h
    have hf := GetAllGithubRepos_frame gh token fuel w _ w1 h
    refine ⟨w1.print ("Error getting github repositories: ".toList ++ err ++ "\n".toList),
      ?_, ?_, ?_⟩
    · unfold backupGithub
      rw [h]
    · simp [World.print, hf.1]
    · simp [World.print, hf.2]
  · intro urls w1 h
    have hf := GetAllGitLabRepos_frame gl token fuel w _ w1 h
    obtain ⟨cmds, hc, hall⟩ := backupLoop_ran rt token urls
      (w1.print ("GitLab repositories: ".toList ++ formatSlice urls ++ "\n".toList))
    refine ⟨backupLoop rt token urls
      (w1.print ("GitLab repositories: ".toList ++ formatSlice urls ++ "\n".toList)),
      cmds, ?_, ?_, hall⟩
    · unfold backupGitLab
      rw [h]
    · rw [hc]
      simp [World.print, hf.1]
  · intro err w1 h
    have hf := GetAllGitLabRepos_frame gl token fuel w _ w1 h
    refine ⟨w1.print ("Error getting gitlab repositories: ".toList ++ err ++ "\n".toList),
      ?_, ?_, ?_⟩
    · unfold backupGitLab
      rw [h]
    · simp [World.print, hf.1]
    · simp [World.print, hf.2]

/-- C4, witness: with a git that fails on every command, the three
repositories found for the example account are still each cloned once, in
discovery order, and no error is returned; with a GitHub that rejects the
credential, the enumeration error is returned and no command runs. -/
theorem backup_visits_every_repository_witness :
    (∃ w2 cmds, backupGithub exampleGitHub failingRuntime "TOK".toList 2 emptyWorld
          = some (none, w2)
        ∧ w2.ran = emptyWorld.ran ++ cmds
        ∧ List.Forall₂
            (fun url cmd => cmd = cloneCmd failingRuntime url "TOK".toList
              ∨ cmd = fetchCmd failingRuntime url)
            ["https://github.com/u/p.git".toList, "https://github.com/a/x.git".toList,
              "https://github.com/c/y.git".toList] cmds)
      ∧ (∃ w2, backupGithub rejectingGitHub failingRuntime "TOK".toList 1 emptyWorld
          = some (some "failed to get current user: GitHub API returned status 401".toList, w2)
        ∧ w2.ran = emptyWorld.ran ∧ w2.paths = emptyWorld.paths) :=
  ⟨(backup_visits_every_repository exampleGitHub exampleGitLab failingRuntime "TOK".toList 2
      emptyWorld).1 _ _ rfl,
   (backup_visits_every_repository rejectingGitHub rejectingGitLab failingRuntime "TOK".toList 1
      emptyWorld).2.1 _ _ rfl⟩

/-! ## `main` -/

/-- C8, the code at the failing input: `strings.Split` never returns an empty
slice, so the length test of `main` cannot fire; with no environment variable
set it gives one empty token per provider and one pass runs, in which
`backupGithub("")` and `backupGitLab("")` each send their identity request
with an empty credential. -/
theorem main_runs_without_credentials :
    (∀ s : GoString, (Split s ",".toList).length ≠ 0)
      ∧ Split (exampleRuntime.Getenv "GITHUB_TOKENS".toList) ",".toList = [[]]
      ∧ Split (exampleRuntime.Getenv "GITLAB_TOKENS".toList) ",".toList = [[]]
      ∧ (main rejectingGitHub rejectingGitLab exampleRuntime 1 1 emptyWorld).map
          (fun w => w.sent)
        = some [githubRequest [] "https://api.github.com/user".toList,
                gitlabRequest [] "https://gitlab.com/api/v4/user".toList] := by
  refine ⟨?_, rfl, rfl, ?_⟩
  · intro s
    have h := splitLoop_ne_nil ",".toList 0 s []
    have hsep : ¬ (",".toList = ([] : GoString)) := by decide
    unfold Split
    rw [if_neg hsep]
    omega
  · decide

end GitBackup
